import Mathlib

/-!
Verification development for the animation-interpolation core of the
movement-interpolation repository (src/animation.rs, src/animation_data.rs).

The Rust code computes with f32/f64; this embedding idealizes machine floats
as real numbers (ℝ), float trigonometry as `Real.sin`/`Real.cos`/`Real.arcsin`/
`Real.arctan`/`Real.arccos`, and the float division `x / 0` (which yields
NaN/inf in Rust) as Lean's total real division.  Library collaborators
(nalgebra, egui) are embedded from their published implementations:
`UnitQuaternion::from_euler_angles`, `UnitQuaternion::to_rotation_matrix`,
`Rotation3::euler_angles` (Slabaugh-style extraction), `Rotation3::from_euler_angles`,
`Quaternion::dot`/`norm_squared`, `UnitQuaternion::from_quaternion` (normalization),
and egui's `emath::normalized_angle` (truncated-remainder wrap into [−π, π]).
-/

noncomputable section

namespace MovementInterpolation

open Real

/-- 3-component real vector, modelling nalgebra's `Vector3<f32>`. -/
@[ext]
structure Vec3 where
  x : ℝ
  y : ℝ
  z : ℝ

instance : Add Vec3 := ⟨fun a b => ⟨a.x + b.x, a.y + b.y, a.z + b.z⟩⟩

instance : SMul ℝ Vec3 := ⟨fun s v => ⟨s * v.x, s * v.y, s * v.z⟩⟩

@[simp]
theorem Vec3.add_def (a b : Vec3) : a + b = ⟨a.x + b.x, a.y + b.y, a.z + b.z⟩ := rfl

@[simp]
theorem Vec3.smul_def (s : ℝ) (v : Vec3) : s • v = ⟨s * v.x, s * v.y, s * v.z⟩ := rfl

/-- Quaternions with real coefficients, modelling nalgebra's `Quaternion<f32>`
(Hamilton product, components w = re, i = imI, j = imJ, k = imK). -/
abbrev Quat := Quaternion ℝ

/-- Componentwise scalar multiplication of a quaternion 4-vector
(nalgebra's `s * q` on `Quaternion<f32>`). -/
def qscale (s : ℝ) (q : Quat) : Quat := ⟨s * q.re, s * q.imI, s * q.imJ, s * q.imK⟩

/-- 4-vector dot product, nalgebra's `Quaternion::dot`. -/
def qdot (a b : Quat) : ℝ :=
  a.re * b.re + a.imI * b.imI + a.imJ * b.imJ + a.imK * b.imK

/-- Squared euclidean norm of the quaternion 4-vector, nalgebra's `norm_squared`. -/
def nsq (q : Quat) : ℝ := q.re ^ 2 + q.imI ^ 2 + q.imJ ^ 2 + q.imK ^ 2

/-- Euclidean norm of the quaternion 4-vector, nalgebra's `norm`. -/
def qnorm (q : Quat) : ℝ := Real.sqrt (nsq q)

namespace UnitQuaternion

/-- nalgebra's `UnitQuaternion::from_quaternion`: normalize the argument to
unit length (`q / ‖q‖`).  For `q = 0` real semantics gives `0` (float
semantics would give NaN components). -/
def from_quaternion (q : Quat) : Quat := qscale (qnorm q)⁻¹ q

/-- nalgebra's `UnitQuaternion::from_euler_angles(roll, pitch, yaw)`:
the quaternion of Rz(yaw)·Ry(pitch)·Rx(roll), built from half-angle
sines and cosines exactly as in the nalgebra source. -/
def from_euler_angles (roll pitch yaw : ℝ) : Quat :=
  let sr := Real.sin (roll / 2); let cr := Real.cos (roll / 2)
  let sp := Real.sin (pitch / 2); let cp := Real.cos (pitch / 2)
  let sy := Real.sin (yaw / 2); let cy := Real.cos (yaw / 2)
  ⟨cr * cp * cy + sr * sp * sy,
   sr * cp * cy - cr * sp * sy,
   cr * sp * cy + sr * cp * sy,
   cr * cp * sy - sr * sp * cy⟩

end UnitQuaternion

/-- 3×3 real matrix with named row-major entries, modelling nalgebra's
`Matrix3<f32>` / `Rotation3<f32>`. -/
@[ext]
structure Mat3 where
  m00 : ℝ
  m01 : ℝ
  m02 : ℝ
  m10 : ℝ
  m11 : ℝ
  m12 : ℝ
  m20 : ℝ
  m21 : ℝ
  m22 : ℝ

/-- Matrix product on `Mat3`. -/
def Mat3.mul (a b : Mat3) : Mat3 :=
  ⟨a.m00 * b.m00 + a.m01 * b.m10 + a.m02 * b.m20,
   a.m00 * b.m01 + a.m01 * b.m11 + a.m02 * b.m21,
   a.m00 * b.m02 + a.m01 * b.m12 + a.m02 * b.m22,
   a.m10 * b.m00 + a.m11 * b.m10 + a.m12 * b.m20,
   a.m10 * b.m01 + a.m11 * b.m11 + a.m12 * b.m21,
   a.m10 * b.m02 + a.m11 * b.m12 + a.m12 * b.m22,
   a.m20 * b.m00 + a.m21 * b.m10 + a.m22 * b.m20,
   a.m20 * b.m01 + a.m21 * b.m11 + a.m22 * b.m21,
   a.m20 * b.m02 + a.m21 * b.m12 + a.m22 * b.m22⟩

/-- The 3×3 identity matrix. -/
def Mat3.id : Mat3 := ⟨1, 0, 0, 0, 1, 0, 0, 0, 1⟩

/-- nalgebra's `UnitQuaternion::to_rotation_matrix`, embedded by the exact
quadratic entry formulas of the nalgebra source. -/
def UnitQuaternion.to_rotation_matrix (q : Quat) : Mat3 :=
  let w := q.re; let i := q.imI; let j := q.imJ; let k := q.imK
  ⟨w ^ 2 + i ^ 2 - j ^ 2 - k ^ 2, 2 * (i * j - w * k), 2 * (i * k + w * j),
   2 * (i * j + w * k), w ^ 2 - i ^ 2 + j ^ 2 - k ^ 2, 2 * (j * k - w * i),
   2 * (i * k - w * j), 2 * (j * k + w * i), w ^ 2 - i ^ 2 - j ^ 2 + k ^ 2⟩

/-- nalgebra's `Rotation3::from_euler_angles(roll, pitch, yaw)` =
Rz(yaw)·Ry(pitch)·Rx(roll), by the explicit entries of the nalgebra source. -/
def Rotation3.from_euler_angles (roll pitch yaw : ℝ) : Mat3 :=
  let sr := Real.sin roll; let cr := Real.cos roll
  let sp := Real.sin pitch; let cp := Real.cos pitch
  let sy := Real.sin yaw; let cy := Real.cos yaw
  ⟨cy * cp, cy * sp * sr - sy * cr, cy * sp * cr + sy * sr,
   sy * cp, sy * sp * sr + cy * cr, sy * sp * cr - cy * sr,
   -sp, cp * sr, cp * cr⟩

/-- Four-quadrant arctangent with libm semantics (`y.atan2(x)`), modelled
piecewise from `Real.arctan`.  The signed-zero distinction of IEEE floats
does not exist on ℝ; `atan2 0 x = π` for `x < 0` and `atan2 0 0 = 0`. -/
def atan2 (y x : ℝ) : ℝ :=
  if 0 < x then Real.arctan (y / x)
  else if x < 0 then
    (if 0 ≤ y then Real.arctan (y / x) + π else Real.arctan (y / x) - π)
  else
    (if 0 < y then π / 2 else if y < 0 then -(π / 2) else 0)

/-- nalgebra's `Rotation3::euler_angles` (Slabaugh extraction): recover
(roll, pitch, yaw) from a rotation matrix, with the two gimbal-lock branches. -/
def Rotation3.euler_angles (m : Mat3) : ℝ × ℝ × ℝ :=
  if |m.m20| < 1 then
    let p := -Real.arcsin m.m20
    let c := Real.cos p
    (atan2 (m.m21 / c) (m.m22 / c), p, atan2 (m.m10 / c) (m.m00 / c))
  else if m.m20 ≤ -1 then
    (atan2 m.m01 m.m02, π / 2, 0)
  else
    (-atan2 m.m01 (-m.m02), -(π / 2), 0)

/-- nalgebra's `UnitQuaternion::euler_angles`, which delegates to the
rotation-matrix extraction. -/
def UnitQuaternion.euler_angles (q : Quat) : ℝ × ℝ × ℝ :=
  Rotation3.euler_angles (UnitQuaternion.to_rotation_matrix q)

/-- Truncation toward zero, the rounding used by Rust's `%` on floats. -/
def ftrunc (x : ℝ) : ℝ := if 0 ≤ x then (⌊x⌋ : ℝ) else (⌈x⌉ : ℝ)

/-- Rust's float remainder `a % b` (remainder of truncated division). -/
def frem (a b : ℝ) : ℝ := a - b * ftrunc (a / b)

/-- egui's `emath::normalized_angle`: reduce an angle modulo 2π into [−π, π]. -/
def normalized_angle (angle : ℝ) : ℝ :=
  let a := frem angle (2 * π)
  if a > π then a - 2 * π else if a < -π then a + 2 * π else a

/-- `QuaternionInterpolationType` from animation_data.rs. -/
inductive QuaternionInterpolationType where
  | Linear
  | Spherical
deriving DecidableEq

/-- `AnimationAngle` from animation.rs (the `Quternion` spelling is the
source's). -/
inductive AnimationAngle where
  | Quternion (q : Quat)
  | Euler (e : Vec3)

namespace AnimationAngle

/-- `AnimationAngle::normalize_angle`: wrap into [0, 2π). -/
def normalize_angle (angle : ℝ) : ℝ :=
  let a := normalized_angle angle
  if 0 ≤ a then a else a + 2 * π

/-- The match inside `AnimationAngle::deconstruct`, before the degenerate
guard and the final re-normalization of the Euler components. -/
def deconstructRaw : AnimationAngle → Quat × Vec3
  | Quternion quaternion =>
      let q := UnitQuaternion.from_quaternion quaternion
      let e := UnitQuaternion.euler_angles q
      (q, ⟨e.1, e.2.1, e.2.2⟩)
  | Euler euler =>
      let e : Vec3 := ⟨normalize_angle euler.x, normalize_angle euler.y,
        normalize_angle euler.z⟩
      (UnitQuaternion.from_euler_angles e.x e.y e.z, e)

/-- `AnimationAngle::deconstruct`: convert either variant into a
(unit quaternion, Euler vector) pair, replacing a quaternion of squared
magnitude below 1e-6 by the identity, then wrapping the Euler components. -/
def deconstruct (a : AnimationAngle) : Quat × Vec3 :=
  let r := deconstructRaw a
  let q := if nsq r.1 < 1e-6 then
      UnitQuaternion.from_quaternion ⟨1, 0, 0, 0⟩
    else r.1
  (q, ⟨normalize_angle r.2.x, normalize_angle r.2.y, normalize_angle r.2.z⟩)

/-- `AnimationAngle::angles_shortest_path`. -/
def angles_shortest_path (b e : ℝ) : ℝ × ℝ :=
  if e - b > π then
    (if b < e then (b, e - 2 * π) else (b, e + 2 * π))
  else if e - b < -π then
    (if b < e then (b + 2 * π, e) else (b - 2 * π, e))
  else (b, e)

end AnimationAngle

/-- The `qs` array of `get_normalized_angles`: the 7 winding generators
(identity and ±2π single-axis turns). -/
def windingQs : List Quat :=
  [UnitQuaternion.from_euler_angles 0 0 0,
   UnitQuaternion.from_euler_angles (2 * π) 0 0,
   UnitQuaternion.from_euler_angles (-(2 * π)) 0 0,
   UnitQuaternion.from_euler_angles 0 (2 * π) 0,
   UnitQuaternion.from_euler_angles 0 (-(2 * π)) 0,
   UnitQuaternion.from_euler_angles 0 0 (2 * π),
   UnitQuaternion.from_euler_angles 0 0 (-(2 * π))]

/-- Two rounds of pairwise composition over `windingQs`
(the two nested `flat_map`s): up to 343 candidate composite rotations. -/
def windingCandidates : List Quat :=
  ((windingQs.flatMap fun f => windingQs.map fun g => f * g).flatMap
    fun f => windingQs.map fun g => f * g)

/-- For each candidate `a`, the two options `(a·begin, end)` and
`(begin, a·end)` (the third `flat_map`). -/
def windingOptions (bq eq' : Quat) : List (Quat × Quat) :=
  windingCandidates.flatMap fun a => [(a * bq, eq'), (bq, a * eq')]

/-- The squared euclidean distance between the two quaternion 4-vectors of a
candidate pair, as scored inside the `reduce`. -/
def pairScore (p : Quat × Quat) : ℝ := nsq (p.1 - p.2)

/-- `Iterator::reduce` with the min-by-score closure of
`get_normalized_angles` (ties keep the later element, as in the source). -/
def reduceMinByScore : List (Quat × Quat) → Option (Quat × Quat)
  | [] => none
  | x :: xs => some (xs.foldl (fun a b => if pairScore a < pairScore b then a else b) x)

namespace AnimationAngle

/-- `AnimationAngle::get_normalized_angles`.  The `.unwrap()` of the reduce
is modelled by a fallback branch that is provably unreachable (the options
list is never empty). -/
def get_normalized_angles (begin' end' : AnimationAngle) :
    Quat × Vec3 × Quat × Vec3 :=
  let bd := deconstruct begin'
  let ed := deconstruct end'
  let sx := angles_shortest_path bd.2.x ed.2.x
  let sy := angles_shortest_path bd.2.y ed.2.y
  let sz := angles_shortest_path bd.2.z ed.2.z
  let begin_euler : Vec3 := ⟨sx.1, sy.1, sz.1⟩
  let end_euler : Vec3 := ⟨sx.2, sy.2, sz.2⟩
  let qpair : Quat × Quat :=
    match begin' with
    | .Euler _ =>
        (UnitQuaternion.from_euler_angles begin_euler.x begin_euler.y begin_euler.z,
         UnitQuaternion.from_euler_angles end_euler.x end_euler.y end_euler.z)
    | _ =>
        match reduceMinByScore (windingOptions bd.1 ed.1) with
        | some p => p
        | none => (bd.1, ed.1)
  (qpair.1, begin_euler, qpair.2, end_euler)

/-- The per-axis shortest-path-resolved Euler pair of `get_normalized_angles`
(the `begin_euler`/`end_euler` block), named for the claim statements. -/
def resolvedEulerPair (begin' end' : AnimationAngle) : Vec3 × Vec3 :=
  let bd := deconstruct begin'
  let ed := deconstruct end'
  let sx := angles_shortest_path bd.2.x ed.2.x
  let sy := angles_shortest_path bd.2.y ed.2.y
  let sz := angles_shortest_path bd.2.z ed.2.z
  (⟨sx.1, sy.1, sz.1⟩, ⟨sx.2, sy.2, sz.2⟩)

end AnimationAngle

/-- The quaternion combination computed by `get_quaternions_interpolation`
before the final renormalization. -/
def get_quaternions_interpolation_raw (begin' end' : Quat) (t : ℝ)
    (interpolation_type : QuaternionInterpolationType) : Quat :=
  match interpolation_type with
  | .Linear => qscale (1 - t) begin' + qscale t end'
  | .Spherical =>
      let d := qdot begin' end'
      let c := if d < -1 then -1 else if d > 1 then 1 else d
      let theta := Real.arccos c
      let theta_sin := Real.sin theta
      let s1 := if theta_sin = 0 then 1 - t else Real.sin ((1 - t) * theta) / theta_sin
      let s2 := if theta_sin = 0 then t else Real.sin (t * theta) / theta_sin
      qscale s1 begin' + qscale s2 end'

/-- `get_quaternions_interpolation` from animation.rs: combine, then
renormalize via `UnitQuaternion::from_quaternion`. -/
def get_quaternions_interpolation (begin' end' : Quat) (t : ℝ)
    (interpolation_type : QuaternionInterpolationType) : Quat :=
  UnitQuaternion.from_quaternion
    (get_quaternions_interpolation_raw begin' end' t interpolation_type)

/-- The clamped cosine `clamp(dot(begin, end), -1, 1)` of the Spherical
branch, named for the statements about the SLERP guard. -/
def slerpCos (b e : Quat) : ℝ :=
  if qdot b e < -1 then -1 else if qdot b e > 1 then 1 else qdot b e

/-- Homogeneous 4×4 real matrix, modelling nalgebra's `Matrix4<f32>`. -/
abbrev Mat4 := Matrix (Fin 4) (Fin 4) ℝ

/-- nalgebra's `Matrix4::new_translation`. -/
def Matrix4.new_translation (t : Vec3) : Mat4 :=
  !![1, 0, 0, t.x; 0, 1, 0, t.y; 0, 0, 1, t.z; 0, 0, 0, 1]

/-- nalgebra's `Rotation3::to_homogeneous`. -/
def Mat3.to_homogeneous (m : Mat3) : Mat4 :=
  !![m.m00, m.m01, m.m02, 0; m.m10, m.m11, m.m12, 0;
     m.m20, m.m21, m.m22, 0; 0, 0, 0, 1]

/-- `DiscreteFrameAnimation` (the `frames_count: u8` is modelled as ℕ; all
reachable values are ≥ 2 by builder validation). -/
structure DiscreteFrameAnimation where
  begin_position : Vec3
  end_position : Vec3
  frames_count : ℕ
  begin_angle : AnimationAngle
  end_angle : AnimationAngle
  quaternion_interpolation_type : QuaternionInterpolationType
  quaternion_frames : Option (List Mat4)
  euler_frames : Option (List Mat4)

/-- `ContinuousAnimation` (f64 times as ℝ). -/
structure ContinuousAnimation where
  begin_position : Vec3
  end_position : Vec3
  animation_time : ℝ
  begin_angle : AnimationAngle
  end_angle : AnimationAngle
  quaternion_interpolation_type : QuaternionInterpolationType
  time_elapsed : ℝ

/-- The closure mapped over `0..frames_count` for the quaternion-path frames
of `DiscreteFrameAnimation::make_step`, at fraction `x`. -/
def discreteQuatFrame (bp ep : Vec3) (bq eq' : Quat)
    (ty : QuaternionInterpolationType) (x : ℝ) : Mat4 :=
  let t := (1 - x) • bp + x • ep
  let r := get_quaternions_interpolation bq eq' x ty
  Matrix4.new_translation t * (UnitQuaternion.to_rotation_matrix r).to_homogeneous

/-- The closure mapped over `0..frames_count` for the Euler-path frames of
`DiscreteFrameAnimation::make_step`, at fraction `x`. -/
def discreteEulerFrame (bp ep : Vec3) (be ee : Vec3) (x : ℝ) : Mat4 :=
  let t := (1 - x) • bp + x • ep
  let r := (1 - x) • be + x • ee
  Matrix4.new_translation t * (Rotation3.from_euler_angles r.x r.y r.z).to_homogeneous

namespace DiscreteFrameAnimation

/-- `get_quaternion_frames`: the source clones and `unwrap()`s the cache;
the embedding exposes the `Option`, with `none` marking the panic. -/
def get_quaternion_frames (a : DiscreteFrameAnimation) : Option (List Mat4) :=
  a.quaternion_frames

/-- `get_euler_frames`: as `get_quaternion_frames`. -/
def get_euler_frames (a : DiscreteFrameAnimation) : Option (List Mat4) :=
  a.euler_frames

/-- `DiscreteFrameAnimation::make_step` (state-passing form; the time
argument is `_time_elapsed` in the source and is unused). -/
def make_step (a : DiscreteFrameAnimation) (_time_elapsed : ℝ) :
    DiscreteFrameAnimation :=
  if a.euler_frames.isSome then a
  else
    let n := AnimationAngle.get_normalized_angles a.begin_angle a.end_angle
    { a with
      quaternion_frames := some ((List.range a.frames_count).map fun f : ℕ =>
        discreteQuatFrame a.begin_position a.end_position n.1 n.2.2.1
          a.quaternion_interpolation_type
          ((f : ℝ) / ((a.frames_count - 1 : ℕ) : ℝ))),
      euler_frames := some ((List.range a.frames_count).map fun f : ℕ =>
        discreteEulerFrame a.begin_position a.end_position n.2.1 n.2.2.2
          ((f : ℝ) / ((a.frames_count - 1 : ℕ) : ℝ))) }

/-- A sequence of `make_step` calls with the given time arguments. -/
def stepAll (a : DiscreteFrameAnimation) (ts : List ℝ) : DiscreteFrameAnimation :=
  ts.foldl make_step a

end DiscreteFrameAnimation

namespace ContinuousAnimation

/-- `ContinuousAnimation::get_quaternion_frames`. -/
def get_quaternion_frames (a : ContinuousAnimation) : List Mat4 :=
  let n := AnimationAngle.get_normalized_angles a.begin_angle a.end_angle
  let x := a.time_elapsed / a.animation_time
  let t := (1 - x) • a.begin_position + x • a.end_position
  let r := get_quaternions_interpolation n.1 n.2.2.1 x a.quaternion_interpolation_type
  [Matrix4.new_translation t * (UnitQuaternion.to_rotation_matrix r).to_homogeneous]

/-- `ContinuousAnimation::get_euler_frames`. -/
def get_euler_frames (a : ContinuousAnimation) : List Mat4 :=
  let n := AnimationAngle.get_normalized_angles a.begin_angle a.end_angle
  let x := a.time_elapsed / a.animation_time
  let t := (1 - x) • a.begin_position + x • a.end_position
  let r := (1 - x) • n.2.1 + x • n.2.2.2
  [Matrix4.new_translation t *
    (Rotation3.from_euler_angles r.x r.y r.z).to_homogeneous]

/-- `ContinuousAnimation::make_step`: add the delta, then clamp to
`animation_time` when the sum reaches it. -/
def make_step (a : ContinuousAnimation) (time_elapsed : ℝ) : ContinuousAnimation :=
  let te := a.time_elapsed + time_elapsed
  { a with time_elapsed := if te ≥ a.animation_time then a.animation_time else te }

/-- A sequence of `make_step` calls with the given time arguments. -/
def stepAll (a : ContinuousAnimation) (ts : List ℝ) : ContinuousAnimation :=
  ts.foldl make_step a

end ContinuousAnimation

/-- The builder generated by `derive_builder` for `DiscreteFrameAnimation`:
unset fields are `none`; the two cache fields use `setter(skip)` and start
as `None`. -/
structure DiscreteFrameAnimationBuilder where
  begin_position : Option Vec3 := none
  end_position : Option Vec3 := none
  frames_count : Option ℕ := none
  begin_angle : Option AnimationAngle := none
  end_angle : Option AnimationAngle := none
  quaternion_interpolation_type : Option QuaternionInterpolationType := none

namespace DiscreteFrameAnimationBuilder

/-- `DiscreteFrameAnimationBuilder::validate`. -/
def validate (b : DiscreteFrameAnimationBuilder) : Except String Unit :=
  match b.frames_count with
  | some fc => if fc ≥ 2 then .ok () else .error "Frames count too low"
  | none => .ok ()

/-- The generated `build`: run `validate`, then require every field to be
set (unset fields give an uninitialized-field error), and start with both
caches `None`. -/
def build (b : DiscreteFrameAnimationBuilder) :
    Except String DiscreteFrameAnimation :=
  match b.validate with
  | .error e => .error e
  | .ok _ =>
    match b.begin_position, b.end_position, b.frames_count, b.begin_angle,
        b.end_angle, b.quaternion_interpolation_type with
    | some bp, some ep, some fc, some ba, some ea, some ty =>
        .ok ⟨bp, ep, fc, ba, ea, ty, none, none⟩
    | _, _, _, _, _, _ => .error "uninitialized field"

end DiscreteFrameAnimationBuilder

/-- The builder generated by `derive_builder` for `ContinuousAnimation`
(no validate; `time_elapsed` uses `setter(skip)` and starts at 0). -/
structure ContinuousAnimationBuilder where
  begin_position : Option Vec3 := none
  end_position : Option Vec3 := none
  animation_time : Option ℝ := none
  begin_angle : Option AnimationAngle := none
  end_angle : Option AnimationAngle := none
  quaternion_interpolation_type : Option QuaternionInterpolationType := none

namespace ContinuousAnimationBuilder

/-- The generated `build` for `ContinuousAnimation`. -/
def build (b : ContinuousAnimationBuilder) : Except String ContinuousAnimation :=
  match b.begin_position, b.end_position, b.animation_time, b.begin_angle,
      b.end_angle, b.quaternion_interpolation_type with
  | some bp, some ep, some at', some ba, some ea, some ty =>
      .ok ⟨bp, ep, at', ba, ea, ty, 0⟩
  | _, _, _, _, _, _ => .error "uninitialized field"

end ContinuousAnimationBuilder

/-- The rotation matrix of a supplied pose rotation: spec 4.1 normalizes
either variant into a canonical unit quaternion (quaternion input is
normalized with the degenerate guard; Euler input is wrapped and converted),
and the pose rotation is that canonical rotation. -/
def poseRotation (a : AnimationAngle) : Mat3 :=
  UnitQuaternion.to_rotation_matrix (AnimationAngle.deconstruct a).1

/-- The homogeneous transform of a pose (spec 4.6: translate ∘ rotate). -/
def poseTransform (p : Vec3) (a : AnimationAngle) : Mat4 :=
  Matrix4.new_translation p * (poseRotation a).to_homogeneous

/-! ## Structural lemmas on discrete stepping -/

theorem DiscreteFrameAnimation.make_step_of_built (a : DiscreteFrameAnimation)
    (h : a.euler_frames.isSome) (t : ℝ) : a.make_step t = a := by
  simp [DiscreteFrameAnimation.make_step, h]

theorem DiscreteFrameAnimation.make_step_builds (a : DiscreteFrameAnimation)
    (h : a.euler_frames = none) (t : ℝ) :
    (a.make_step t).quaternion_frames.isSome ∧ (a.make_step t).euler_frames.isSome := by
  simp [DiscreteFrameAnimation.make_step, h]

theorem DiscreteFrameAnimation.make_step_euler_isSome
    (a : DiscreteFrameAnimation) (t : ℝ) : (a.make_step t).euler_frames.isSome := by
  unfold DiscreteFrameAnimation.make_step
  by_cases h : a.euler_frames.isSome
  · simp [h]
  · simp [h]

theorem DiscreteFrameAnimation.stepAll_of_built (a : DiscreteFrameAnimation)
    (h : a.euler_frames.isSome) : ∀ ts : List ℝ, a.stepAll ts = a
  | [] => rfl
  | t :: ts => by
    rw [DiscreteFrameAnimation.stepAll, List.foldl_cons,
      DiscreteFrameAnimation.make_step_of_built a h t]
    exact DiscreteFrameAnimation.stepAll_of_built a h ts

theorem DiscreteFrameAnimationBuilder.build_caches_none
    (b : DiscreteFrameAnimationBuilder) (a : DiscreteFrameAnimation)
    (h : b.build = .ok a) : a.quaternion_frames = none ∧ a.euler_frames = none := by
  unfold DiscreteFrameAnimationBuilder.build at h
  split at h
  · exact absurd h (by simp)
  · split at h
    · obtain ⟨rfl⟩ := h
      exact ⟨rfl, rfl⟩
    · exact absurd h (by simp)

/-! ## Claim theorems: C6, C9, C7 -/

/-- C6: building a `DiscreteFrameAnimation` with `frames_count < 2` (so 0 or 1)
fails with the validation error, and with any `frames_count ≥ 2` the build
succeeds for arbitrary values of every other field, so the frames-count check
is the only input validation performed at construction. -/
theorem c6_frames_count_only_validation
    (bp ep : Vec3) (fc : ℕ) (ba ea : AnimationAngle)
    (ty : QuaternionInterpolationType) :
    (fc < 2 → DiscreteFrameAnimationBuilder.build
        ⟨some bp, some ep, some fc, some ba, some ea, some ty⟩ =
        .error "Frames count too low") ∧
    (2 ≤ fc → DiscreteFrameAnimationBuilder.build
        ⟨some bp, some ep, some fc, some ba, some ea, some ty⟩ =
        .ok ⟨bp, ep, fc, ba, ea, ty, none, none⟩) := by
  constructor
  · intro h
    have h2 : ¬ (fc ≥ 2) := by omega
    simp [DiscreteFrameAnimationBuilder.build, DiscreteFrameAnimationBuilder.validate, h2]
  · intro h
    simp [DiscreteFrameAnimationBuilder.build, DiscreteFrameAnimationBuilder.validate, h]

/-- Witness for C6 at `frames_count = 0` (fails) and `frames_count = 2`
(succeeds). -/
theorem c6_frames_count_only_validation_witness :
    ((0 : ℕ) < 2 ∧ DiscreteFrameAnimationBuilder.build
        ⟨some ⟨0, 0, 0⟩, some ⟨0, 0, 0⟩, some 0, some (.Euler ⟨0, 0, 0⟩),
          some (.Euler ⟨0, 0, 0⟩), some .Linear⟩ =
        .error "Frames count too low") ∧
    (2 ≤ (2 : ℕ) ∧ DiscreteFrameAnimationBuilder.build
        ⟨some ⟨0, 0, 0⟩, some ⟨0, 0, 0⟩, some 2, some (.Euler ⟨0, 0, 0⟩),
          some (.Euler ⟨0, 0, 0⟩), some .Linear⟩ =
        .ok ⟨⟨0, 0, 0⟩, ⟨0, 0, 0⟩, 2, .Euler ⟨0, 0, 0⟩, .Euler ⟨0, 0, 0⟩,
          .Linear, none, none⟩) :=
  ⟨⟨by norm_num,
    (c6_frames_count_only_validation ⟨0, 0, 0⟩ ⟨0, 0, 0⟩ 0 (.Euler ⟨0, 0, 0⟩)
      (.Euler ⟨0, 0, 0⟩) .Linear).1 (by norm_num)⟩,
   ⟨by norm_num,
    (c6_frames_count_only_validation ⟨0, 0, 0⟩ ⟨0, 0, 0⟩ 2 (.Euler ⟨0, 0, 0⟩)
      (.Euler ⟨0, 0, 0⟩) .Linear).2 (by norm_num)⟩⟩

/-- C9: the time argument of `make_step` never affects the result; the first
call (absent cache) builds both caches; any subsequent call returns the
record unchanged. -/
theorem c9_make_step_builds_once_time_ignored
    (a : DiscreteFrameAnimation) (t t' : ℝ) :
    a.make_step t = a.make_step t' ∧
    (a.euler_frames = none →
      (a.make_step t).quaternion_frames.isSome ∧
      (a.make_step t).euler_frames.isSome) ∧
    ((a.make_step t).make_step t' = a.make_step t) ∧
    (a.euler_frames.isSome → a.make_step t = a) :=
  ⟨rfl,
   fun h => DiscreteFrameAnimation.make_step_builds a h t,
   DiscreteFrameAnimation.make_step_of_built _
     (DiscreteFrameAnimation.make_step_euler_isSome a t) t',
   fun h => DiscreteFrameAnimation.make_step_of_built a h t⟩

/-- Witness for C9: a freshly built animation gains both caches on the first
step, and a cached animation is returned unchanged. -/
theorem c9_make_step_builds_once_time_ignored_witness :
    (((⟨⟨0, 0, 0⟩, ⟨0, 0, 0⟩, 2, .Euler ⟨0, 0, 0⟩, .Euler ⟨0, 0, 0⟩, .Linear,
        none, none⟩ : DiscreteFrameAnimation).make_step 0).quaternion_frames.isSome ∧
      ((⟨⟨0, 0, 0⟩, ⟨0, 0, 0⟩, 2, .Euler ⟨0, 0, 0⟩, .Euler ⟨0, 0, 0⟩, .Linear,
        none, none⟩ : DiscreteFrameAnimation).make_step 0).euler_frames.isSome) ∧
    ((⟨⟨0, 0, 0⟩, ⟨0, 0, 0⟩, 2, .Euler ⟨0, 0, 0⟩, .Euler ⟨0, 0, 0⟩, .Linear,
        some [], some []⟩ : DiscreteFrameAnimation).make_step 0 =
      ⟨⟨0, 0, 0⟩, ⟨0, 0, 0⟩, 2, .Euler ⟨0, 0, 0⟩, .Euler ⟨0, 0, 0⟩, .Linear,
        some [], some []⟩) :=
  ⟨(c9_make_step_builds_once_time_ignored _ 0 0).2.1 rfl,
   (c9_make_step_builds_once_time_ignored _ 0 0).2.2.2 rfl⟩

/-- C7: on a freshly built `DiscreteFrameAnimation` both frame getters hit the
absent cache (the source's `unwrap()` panics, modelled as `none`); after at
least one `make_step` call both getters return present caches. -/
theorem c7_get_frames_requires_step
    (b : DiscreteFrameAnimationBuilder) (a : DiscreteFrameAnimation)
    (h : b.build = .ok a) :
    a.get_quaternion_frames = none ∧ a.get_euler_frames = none ∧
    ∀ ts : List ℝ, ts ≠ [] →
      (a.stepAll ts).get_quaternion_frames.isSome ∧
      (a.stepAll ts).get_euler_frames.isSome := by
  obtain ⟨hq, he⟩ := DiscreteFrameAnimationBuilder.build_caches_none b a h
  refine ⟨hq, he, ?_⟩
  intro ts hts
  match ts with
  | [] => exact absurd rfl hts
  | t :: ts =>
    have hstep := DiscreteFrameAnimation.make_step_builds a he t
    have : a.stepAll (t :: ts) = (a.make_step t).stepAll ts := rfl
    rw [this, DiscreteFrameAnimation.stepAll_of_built _ hstep.2 ts]
    exact hstep

/-- Witness for C7 on a concrete builder and the step list `[0]`. -/
theorem c7_get_frames_requires_step_witness :
    (DiscreteFrameAnimationBuilder.build
        ⟨some ⟨0, 0, 0⟩, some ⟨0, 0, 0⟩, some 2, some (.Euler ⟨0, 0, 0⟩),
          some (.Euler ⟨0, 0, 0⟩), some .Linear⟩ =
      .ok ⟨⟨0, 0, 0⟩, ⟨0, 0, 0⟩, 2, .Euler ⟨0, 0, 0⟩, .Euler ⟨0, 0, 0⟩,
        .Linear, none, none⟩) ∧
    ((⟨⟨0, 0, 0⟩, ⟨0, 0, 0⟩, 2, .Euler ⟨0, 0, 0⟩, .Euler ⟨0, 0, 0⟩, .Linear,
        none, none⟩ : DiscreteFrameAnimation).get_quaternion_frames = none ∧
     ((⟨⟨0, 0, 0⟩, ⟨0, 0, 0⟩, 2, .Euler ⟨0, 0, 0⟩, .Euler ⟨0, 0, 0⟩, .Linear,
        none, none⟩ : DiscreteFrameAnimation).stepAll [0]).get_euler_frames.isSome) := by
  have hb : DiscreteFrameAnimationBuilder.build
      ⟨some ⟨0, 0, 0⟩, some ⟨0, 0, 0⟩, some 2, some (.Euler ⟨0, 0, 0⟩),
        some (.Euler ⟨0, 0, 0⟩), some .Linear⟩ =
      .ok ⟨⟨0, 0, 0⟩, ⟨0, 0, 0⟩, 2, .Euler ⟨0, 0, 0⟩, .Euler ⟨0, 0, 0⟩,
        .Linear, none, none⟩ := rfl
  have hc := c7_get_frames_requires_step _ _ hb
  exact ⟨hb, hc.1, (hc.2.2 [0] (by simp)).2⟩

/-! ## Structural lemmas on continuous stepping -/

theorem ContinuousAnimation.make_step_elapsed (a : ContinuousAnimation) (dt : ℝ) :
    (a.make_step dt).time_elapsed = min (a.time_elapsed + dt) a.animation_time := by
  show (if a.time_elapsed + dt ≥ a.animation_time then a.animation_time
      else a.time_elapsed + dt) = _
  split
  · exact (min_eq_right (by linarith)).symm
  · exact (min_eq_left (by linarith)).symm

theorem ContinuousAnimation.make_step_static (a : ContinuousAnimation) (dt : ℝ) :
    a.make_step dt = ⟨a.begin_position, a.end_position, a.animation_time,
      a.begin_angle, a.end_angle, a.quaternion_interpolation_type,
      (a.make_step dt).time_elapsed⟩ := rfl

theorem ContinuousAnimation.stepAll_static :
    ∀ (ts : List ℝ) (a : ContinuousAnimation),
      a.stepAll ts = ⟨a.begin_position, a.end_position, a.animation_time,
        a.begin_angle, a.end_angle, a.quaternion_interpolation_type,
        (a.stepAll ts).time_elapsed⟩
  | [], a => rfl
  | t :: ts, a => by
    show (a.make_step t).stepAll ts = _
    rw [ContinuousAnimation.stepAll_static ts (a.make_step t)]
    rfl

theorem ContinuousAnimation.stepAll_elapsed_congr :
    ∀ (ts : List ℝ) (a₁ a₂ : ContinuousAnimation),
      a₁.animation_time = a₂.animation_time →
      a₁.time_elapsed = a₂.time_elapsed →
      (a₁.stepAll ts).time_elapsed = (a₂.stepAll ts).time_elapsed
  | [], _, _, _, he => he
  | t :: ts, a₁, a₂, ha, he => by
    show ((a₁.make_step t).stepAll ts).time_elapsed = ((a₂.make_step t).stepAll ts).time_elapsed
    refine ContinuousAnimation.stepAll_elapsed_congr ts _ _ ha ?_
    rw [ContinuousAnimation.make_step_elapsed, ContinuousAnimation.make_step_elapsed,
      ha, he]

theorem ContinuousAnimation.stepAll_bounds :
    ∀ (ts : List ℝ) (a : ContinuousAnimation), (∀ t ∈ ts, 0 ≤ t) →
      0 ≤ a.time_elapsed → a.time_elapsed ≤ a.animation_time →
      0 ≤ (a.stepAll ts).time_elapsed ∧
      (a.stepAll ts).time_elapsed ≤ a.animation_time ∧
      a.time_elapsed ≤ (a.stepAll ts).time_elapsed
  | [], a, _, h0, h1 => ⟨h0, h1, le_refl _⟩
  | t :: ts, a, hts, h0, h1 => by
    have ht : (0 : ℝ) ≤ t := hts t (by simp)
    have hstep := ContinuousAnimation.make_step_elapsed a t
    have hmono : a.time_elapsed ≤ (a.make_step t).time_elapsed := by
      rw [hstep]; exact le_min (by linarith) h1
    have hub : (a.make_step t).time_elapsed ≤ a.animation_time := by
      rw [hstep]; exact min_le_right _ _
    have hat : (a.make_step t).animation_time = a.animation_time := rfl
    have hrest := ContinuousAnimation.stepAll_bounds ts (a.make_step t)
      (fun s hs => hts s (by simp [hs])) (le_trans h0 hmono) (by rw [hat]; exact hub)
    refine ⟨hrest.1, by rw [hat] at hrest; exact hrest.2.1, le_trans hmono hrest.2.2⟩

/-! ## Claim theorems: C4 -/

/-- C4 counterexample: starting from a freshly built continuous animation
(`time_elapsed = 0`, `animation_time = 10`), `make_step (-1)` drives
`time_elapsed` to −1, strictly below 0 and strictly below its previous value,
refuting the claimed unconditional bounds and monotonicity. -/
theorem c4_counterexample :
    ((⟨⟨0, 0, 0⟩, ⟨0, 0, 0⟩, 10, .Euler ⟨0, 0, 0⟩, .Euler ⟨0, 0, 0⟩, .Linear, 0⟩ :
        ContinuousAnimation).make_step (-1)).time_elapsed = -1 ∧
    ((⟨⟨0, 0, 0⟩, ⟨0, 0, 0⟩, 10, .Euler ⟨0, 0, 0⟩, .Euler ⟨0, 0, 0⟩, .Linear, 0⟩ :
        ContinuousAnimation).make_step (-1)).time_elapsed < 0 ∧
    ((⟨⟨0, 0, 0⟩, ⟨0, 0, 0⟩, 10, .Euler ⟨0, 0, 0⟩, .Euler ⟨0, 0, 0⟩, .Linear, 0⟩ :
        ContinuousAnimation).make_step (-1)).time_elapsed <
      (⟨⟨0, 0, 0⟩, ⟨0, 0, 0⟩, 10, .Euler ⟨0, 0, 0⟩, .Euler ⟨0, 0, 0⟩, .Linear, 0⟩ :
        ContinuousAnimation).time_elapsed := by
  have h : ((⟨⟨0, 0, 0⟩, ⟨0, 0, 0⟩, 10, .Euler ⟨0, 0, 0⟩, .Euler ⟨0, 0, 0⟩, .Linear, 0⟩ :
      ContinuousAnimation).make_step (-1)).time_elapsed = -1 := by
    rw [ContinuousAnimation.make_step_elapsed]
    norm_num
  refine ⟨h, by rw [h]; norm_num, by rw [h]; norm_num⟩

/-- C4 (amended with nonnegative time deltas): `make_step dt` always sets
`time_elapsed` to `min (time_elapsed + dt) animation_time`; when `0 ≤ dt` and
the invariant `0 ≤ time_elapsed ≤ animation_time` holds, stepping is
monotone and preserves the bounds; once `time_elapsed = animation_time`, a
further nonnegative step returns the record unchanged (so both frame getters
produce identical output); along any list of nonnegative deltas the elapsed
time stays in bounds and never decreases. -/
theorem c4_elapsed_saturates_monotone (a : ContinuousAnimation) (dt : ℝ) :
    ((a.make_step dt).time_elapsed = min (a.time_elapsed + dt) a.animation_time) ∧
    (0 ≤ dt → a.time_elapsed ≤ a.animation_time →
      a.time_elapsed ≤ (a.make_step dt).time_elapsed ∧
      (a.make_step dt).time_elapsed ≤ a.animation_time ∧
      (0 ≤ a.time_elapsed → 0 ≤ (a.make_step dt).time_elapsed)) ∧
    (0 ≤ dt → a.time_elapsed = a.animation_time → a.make_step dt = a) ∧
    (∀ ts : List ℝ, (∀ t ∈ ts, 0 ≤ t) →
      0 ≤ a.time_elapsed → a.time_elapsed ≤ a.animation_time →
      0 ≤ (a.stepAll ts).time_elapsed ∧
      (a.stepAll ts).time_elapsed ≤ a.animation_time ∧
      a.time_elapsed ≤ (a.stepAll ts).time_elapsed) := by
  refine ⟨ContinuousAnimation.make_step_elapsed a dt, ?_, ?_, ?_⟩
  · intro hdt hle
    rw [ContinuousAnimation.make_step_elapsed]
    exact ⟨le_min (by linarith) hle, min_le_right _ _,
      fun h0 => le_trans h0 (le_min (by linarith) hle)⟩
  · intro hdt hsat
    have hte : (a.make_step dt).time_elapsed = a.time_elapsed := by
      rw [ContinuousAnimation.make_step_elapsed, hsat]
      exact min_eq_right (by linarith)
    rw [ContinuousAnimation.make_step_static, hte]
  · exact fun ts => ContinuousAnimation.stepAll_bounds ts a

/-- Witness for C4: a concrete animation stepped by nonnegative deltas obeys
the min formula, monotonicity, saturation idempotence and the list bounds. -/
theorem c4_elapsed_saturates_monotone_witness :
    (((⟨⟨0, 0, 0⟩, ⟨0, 0, 0⟩, 10, .Euler ⟨0, 0, 0⟩, .Euler ⟨0, 0, 0⟩, .Linear, 0⟩ :
        ContinuousAnimation).make_step 4).time_elapsed ≤ 10) ∧
    ((⟨⟨0, 0, 0⟩, ⟨0, 0, 0⟩, 10, .Euler ⟨0, 0, 0⟩, .Euler ⟨0, 0, 0⟩, .Linear, 10⟩ :
        ContinuousAnimation).make_step 4 =
      ⟨⟨0, 0, 0⟩, ⟨0, 0, 0⟩, 10, .Euler ⟨0, 0, 0⟩, .Euler ⟨0, 0, 0⟩, .Linear, 10⟩) ∧
    (0 ≤ ((⟨⟨0, 0, 0⟩, ⟨0, 0, 0⟩, 10, .Euler ⟨0, 0, 0⟩, .Euler ⟨0, 0, 0⟩, .Linear, 0⟩ :
        ContinuousAnimation).stepAll [4, 7]).time_elapsed) :=
  ⟨((c4_elapsed_saturates_monotone _ 4).2.1 (by norm_num) (by norm_num)).2.1,
   (c4_elapsed_saturates_monotone
     (⟨⟨0, 0, 0⟩, ⟨0, 0, 0⟩, 10, .Euler ⟨0, 0, 0⟩, .Euler ⟨0, 0, 0⟩, .Linear, 10⟩ :
       ContinuousAnimation) 4).2.2.1 (by norm_num) rfl,
   ((c4_elapsed_saturates_monotone _ 4).2.2.2 [4, 7]
     (by intro t ht; simp at ht; rcases ht with h | h <;> simp [h])
     (by norm_num) (by norm_num)).1⟩

/-! ## Claim theorems: C10 -/

theorem DiscreteFrameAnimation.stepAll_euler_qtype_irrel :
    ∀ (ts : List ℝ) (bp ep : Vec3) (fc : ℕ) (ba ea : AnimationAngle)
      (ty₁ ty₂ : QuaternionInterpolationType) (qf₁ qf₂ ef : Option (List Mat4)),
      (DiscreteFrameAnimation.stepAll ⟨bp, ep, fc, ba, ea, ty₁, qf₁, ef⟩ ts).euler_frames =
      (DiscreteFrameAnimation.stepAll ⟨bp, ep, fc, ba, ea, ty₂, qf₂, ef⟩ ts).euler_frames
  | [], _, _, _, _, _, _, _, _, _, _ => rfl
  | t :: ts, bp, ep, fc, ba, ea, ty₁, ty₂, qf₁, qf₂, ef => by
    show (DiscreteFrameAnimation.stepAll
        (DiscreteFrameAnimation.make_step ⟨bp, ep, fc, ba, ea, ty₁, qf₁, ef⟩ t) ts).euler_frames =
      (DiscreteFrameAnimation.stepAll
        (DiscreteFrameAnimation.make_step ⟨bp, ep, fc, ba, ea, ty₂, qf₂, ef⟩ t) ts).euler_frames
    by_cases hef : ef.isSome
    · rw [DiscreteFrameAnimation.make_step_of_built _ hef,
        DiscreteFrameAnimation.make_step_of_built _ hef]
      exact DiscreteFrameAnimation.stepAll_euler_qtype_irrel ts bp ep fc ba ea ty₁ ty₂ qf₁ qf₂ ef
    · have h1 : DiscreteFrameAnimation.make_step ⟨bp, ep, fc, ba, ea, ty₁, qf₁, ef⟩ t =
          ⟨bp, ep, fc, ba, ea, ty₁,
            some ((List.range fc).map fun f : ℕ =>
              discreteQuatFrame bp ep
                (AnimationAngle.get_normalized_angles ba ea).1
                (AnimationAngle.get_normalized_angles ba ea).2.2.1 ty₁
                ((f : ℝ) / ((fc - 1 : ℕ) : ℝ))),
            some ((List.range fc).map fun f : ℕ =>
              discreteEulerFrame bp ep
                (AnimationAngle.get_normalized_angles ba ea).2.1
                (AnimationAngle.get_normalized_angles ba ea).2.2.2
                ((f : ℝ) / ((fc - 1 : ℕ) : ℝ)))⟩ := by
        simp [DiscreteFrameAnimation.make_step, hef]
      have h2 : DiscreteFrameAnimation.make_step ⟨bp, ep, fc, ba, ea, ty₂, qf₂, ef⟩ t =
          ⟨bp, ep, fc, ba, ea, ty₂,
            some ((List.range fc).map fun f : ℕ =>
              discreteQuatFrame bp ep
                (AnimationAngle.get_normalized_angles ba ea).1
                (AnimationAngle.get_normalized_angles ba ea).2.2.1 ty₂
                ((f : ℝ) / ((fc - 1 : ℕ) : ℝ))),
            some ((List.range fc).map fun f : ℕ =>
              discreteEulerFrame bp ep
                (AnimationAngle.get_normalized_angles ba ea).2.1
                (AnimationAngle.get_normalized_angles ba ea).2.2.2
                ((f : ℝ) / ((fc - 1 : ℕ) : ℝ)))⟩ := by
        simp [DiscreteFrameAnimation.make_step, hef]
      rw [h1, h2]
      exact DiscreteFrameAnimation.stepAll_euler_qtype_irrel ts bp ep fc ba ea ty₁ ty₂ _ _ _

/-- C10: two animations identical in every field except
`quaternion_interpolation_type`, driven by an identical sequence of
`make_step` calls, produce identical Euler-path outputs — for the discrete
kind (from a freshly built state) and for the continuous kind. -/
theorem c10_euler_track_independent_of_interpolation_law
    (bp ep : Vec3) (ba ea : AnimationAngle)
    (ty₁ ty₂ : QuaternionInterpolationType) (ts : List ℝ) :
    (∀ fc : ℕ,
      ((⟨bp, ep, fc, ba, ea, ty₁, none, none⟩ :
        DiscreteFrameAnimation).stepAll ts).get_euler_frames =
      ((⟨bp, ep, fc, ba, ea, ty₂, none, none⟩ :
        DiscreteFrameAnimation).stepAll ts).get_euler_frames) ∧
    (∀ dur : ℝ,
      ((⟨bp, ep, dur, ba, ea, ty₁, 0⟩ :
        ContinuousAnimation).stepAll ts).get_euler_frames =
      ((⟨bp, ep, dur, ba, ea, ty₂, 0⟩ :
        ContinuousAnimation).stepAll ts).get_euler_frames) := by
  constructor
  · intro fc
    exact DiscreteFrameAnimation.stepAll_euler_qtype_irrel ts bp ep fc ba ea ty₁ ty₂ none none none
  · intro dur
    have h1 := ContinuousAnimation.stepAll_static ts ⟨bp, ep, dur, ba, ea, ty₁, 0⟩
    have h2 := ContinuousAnimation.stepAll_static ts ⟨bp, ep, dur, ba, ea, ty₂, 0⟩
    have h3 := ContinuousAnimation.stepAll_elapsed_congr ts
      ⟨bp, ep, dur, ba, ea, ty₁, 0⟩ ⟨bp, ep, dur, ba, ea, ty₂, 0⟩ rfl rfl
    rw [ContinuousAnimation.get_euler_frames, ContinuousAnimation.get_euler_frames,
      h1, h2, h3]

/-! ## Claim theorems: C5 -/

/-- C5: for angles in [0, 2π), `angles_shortest_path` returns a pair whose
difference has absolute value at most π and is congruent to the original
difference modulo 2π; in particular 350° to 10° resolves to a +20° delta. -/
theorem c5_angles_shortest_path (b e : ℝ)
    (hb0 : 0 ≤ b) (hb1 : b < 2 * π) (he0 : 0 ≤ e) (he1 : e < 2 * π) :
    (|(AnimationAngle.angles_shortest_path b e).2 -
        (AnimationAngle.angles_shortest_path b e).1| ≤ π ∧
      ∃ k : ℤ, (AnimationAngle.angles_shortest_path b e).2 -
          (AnimationAngle.angles_shortest_path b e).1 = (e - b) + 2 * π * k) ∧
    (AnimationAngle.angles_shortest_path (35 * π / 18) (π / 18)).2 -
        (AnimationAngle.angles_shortest_path (35 * π / 18) (π / 18)).1 = π / 9 := by
  have hpi := Real.pi_pos
  constructor
  · unfold AnimationAngle.angles_shortest_path
    by_cases h1 : e - b > π
    · have hlt : b < e := by linarith
      rw [if_pos h1, if_pos hlt]
      refine ⟨abs_le.mpr ⟨by simp; linarith, by simp; linarith⟩, -1, ?_⟩
      simp only
      push_cast
      ring
    · rw [if_neg h1]
      by_cases h2 : e - b < -π
      · have hlt : ¬ b < e := not_lt.mpr (by linarith)
        rw [if_pos h2, if_neg hlt]
        refine ⟨abs_le.mpr ⟨by simp; linarith, by simp; linarith⟩, 1, ?_⟩
        simp only
        push_cast
        ring
      · rw [if_neg h2]
        refine ⟨abs_le.mpr ⟨by simp; linarith, by simp; linarith⟩, 0, ?_⟩
        simp only
        push_cast
        ring
  · have hc1 : ¬ (π / 18 - 35 * π / 18 > π) := by nlinarith
    have hc2 : π / 18 - 35 * π / 18 < -π := by nlinarith
    have hc3 : ¬ (35 * π / 18 < π / 18) := by nlinarith
    unfold AnimationAngle.angles_shortest_path
    rw [if_neg hc1, if_pos hc2, if_neg hc3]
    ring

/-- Witness for C5 at the concrete pair (350°, 10°) = (35π/18, π/18),
discharging the range hypotheses. -/
theorem c5_angles_shortest_path_witness :
    (0 ≤ 35 * π / 18 ∧ 35 * π / 18 < 2 * π ∧ 0 ≤ π / 18 ∧ π / 18 < 2 * π) ∧
    (|(AnimationAngle.angles_shortest_path (35 * π / 18) (π / 18)).2 -
        (AnimationAngle.angles_shortest_path (35 * π / 18) (π / 18)).1| ≤ π ∧
      ∃ k : ℤ, (AnimationAngle.angles_shortest_path (35 * π / 18) (π / 18)).2 -
          (AnimationAngle.angles_shortest_path (35 * π / 18) (π / 18)).1 =
          (π / 18 - 35 * π / 18) + 2 * π * k) := by
  have hpi := Real.pi_pos
  have h1 : (0:ℝ) ≤ 35 * π / 18 := by positivity
  have h2 : 35 * π / 18 < 2 * π := by nlinarith
  have h3 : (0:ℝ) ≤ π / 18 := by positivity
  have h4 : π / 18 < 2 * π := by nlinarith
  exact ⟨⟨h1, h2, h3, h4⟩,
    (c5_angles_shortest_path (35 * π / 18) (π / 18) h1 h2 h3 h4).1⟩

/-! ## Claim theorems: C8 -/

/-- C8 counterexample: for the antipodal unit endpoints (1,0,0,0) and
(−1,0,0,0) at t = 1/2 the Spherical branch (guarded into linear weights)
combines to the zero quaternion, whose norm — the divisor of the final
renormalization — is 0, so an arithmetic path other than the `sin θ`
division does fail. -/
theorem c8_counterexample :
    get_quaternions_interpolation_raw ⟨1, 0, 0, 0⟩ ⟨-1, 0, 0, 0⟩ (1 / 2) .Spherical = 0 ∧
    qnorm (get_quaternions_interpolation_raw ⟨1, 0, 0, 0⟩ ⟨-1, 0, 0, 0⟩
      (1 / 2) .Spherical) = 0 := by
  have hd : qdot (⟨1, 0, 0, 0⟩ : Quat) ⟨-1, 0, 0, 0⟩ = -1 := by
    simp [qdot]
  have h : get_quaternions_interpolation_raw ⟨1, 0, 0, 0⟩ ⟨-1, 0, 0, 0⟩
      (1 / 2) .Spherical = 0 := by
    simp only [get_quaternions_interpolation_raw, hd]
    norm_num [Real.arccos_neg_one, Real.sin_pi]
    apply Quaternion.ext <;> simp [qscale]
  refine ⟨h, by rw [h]; simp [qnorm, nsq]⟩

/-- C8 (amended): the Spherical cosine is the dot product clamped to [−1, 1],
θ = arccos of it lies in [0, π] and has cosine equal to the clamp; when
sin θ = 0 the linear weights (1−t, t) are used, and the sine-ratio weights —
the only division by sin θ — are used exactly when sin θ ≠ 0.  (The final
renormalization is not total: see the counterexample.) -/
theorem c8_slerp_guard (b e : Quat) (t : ℝ) :
    (-1 ≤ slerpCos b e ∧ slerpCos b e ≤ 1 ∧
      0 ≤ Real.arccos (slerpCos b e) ∧ Real.arccos (slerpCos b e) ≤ π ∧
      Real.cos (Real.arccos (slerpCos b e)) = slerpCos b e) ∧
    (Real.sin (Real.arccos (slerpCos b e)) = 0 →
      get_quaternions_interpolation_raw b e t .Spherical =
        qscale (1 - t) b + qscale t e) ∧
    (Real.sin (Real.arccos (slerpCos b e)) ≠ 0 →
      get_quaternions_interpolation_raw b e t .Spherical =
        qscale (Real.sin ((1 - t) * Real.arccos (slerpCos b e)) /
            Real.sin (Real.arccos (slerpCos b e))) b +
          qscale (Real.sin (t * Real.arccos (slerpCos b e)) /
            Real.sin (Real.arccos (slerpCos b e))) e) := by
  have hc : -1 ≤ slerpCos b e ∧ slerpCos b e ≤ 1 := by
    unfold slerpCos
    split_ifs with h1 h2
    · exact ⟨le_refl _, by norm_num⟩
    · exact ⟨by norm_num, le_refl _⟩
    · exact ⟨not_lt.mp h1, not_lt.mp h2⟩
  refine ⟨⟨hc.1, hc.2, Real.arccos_nonneg _, Real.arccos_le_pi _,
    Real.cos_arccos hc.1 hc.2⟩, ?_, ?_⟩
  · intro hs
    simp only [get_quaternions_interpolation_raw, slerpCos] at hs ⊢
    rw [if_pos hs, if_pos hs]
  · intro hs
    simp only [get_quaternions_interpolation_raw, slerpCos] at hs ⊢
    rw [if_neg hs, if_neg hs]

/-- Witness for C8 at coincident endpoints, where sin θ = 0 and the linear
weights are selected. -/
theorem c8_slerp_guard_witness :
    Real.sin (Real.arccos (slerpCos ⟨1, 0, 0, 0⟩ ⟨1, 0, 0, 0⟩)) = 0 ∧
    get_quaternions_interpolation_raw ⟨1, 0, 0, 0⟩ ⟨1, 0, 0, 0⟩ (1 / 3) .Spherical =
      qscale (1 - 1 / 3) ⟨1, 0, 0, 0⟩ + qscale (1 / 3) ⟨1, 0, 0, 0⟩ := by
  have hd : qdot (⟨1, 0, 0, 0⟩ : Quat) ⟨1, 0, 0, 0⟩ = 1 := by simp [qdot]
  have hs : Real.sin (Real.arccos (slerpCos ⟨1, 0, 0, 0⟩ ⟨1, 0, 0, 0⟩)) = 0 := by
    rw [slerpCos, hd]
    norm_num [Real.arccos_one]
  exact ⟨hs, (c8_slerp_guard ⟨1, 0, 0, 0⟩ ⟨1, 0, 0, 0⟩ (1 / 3)).2.1 hs⟩

/-! ## Claim theorems: C2 -/

/-- C2 counterexample: the quaternion-variant input (0, 1e-4, 0, 0) has raw
squared norm 1e-8 < 1e-6, yet it deconstructs to the 180°-about-x rotation
(0, 1, 0, 0), not the identity: the guard tests the already normalized
quaternion (squared norm 1), so a small raw 4-vector is not replaced. -/
theorem c2_counterexample :
    nsq (⟨0, 1 / 10000, 0, 0⟩ : Quat) < 1e-6 ∧
    (AnimationAngle.deconstruct (.Quternion ⟨0, 1 / 10000, 0, 0⟩)).1 = ⟨0, 1, 0, 0⟩ ∧
    (AnimationAngle.deconstruct (.Quternion ⟨0, 1 / 10000, 0, 0⟩)).1 ≠ ⟨1, 0, 0, 0⟩ ∧
    UnitQuaternion.to_rotation_matrix
      (AnimationAngle.deconstruct (.Quternion ⟨0, 1 / 10000, 0, 0⟩)).1 ≠ Mat3.id := by
  have hnsq : nsq (⟨0, 1 / 10000, 0, 0⟩ : Quat) = (1 / 10000 : ℝ) ^ 2 := by
    simp [nsq]
  have hn : qnorm (⟨0, 1 / 10000, 0, 0⟩ : Quat) = 1 / 10000 := by
    rw [qnorm, hnsq, Real.sqrt_sq (by norm_num)]
  have hfq : UnitQuaternion.from_quaternion ⟨0, 1 / 10000, 0, 0⟩ =
      (⟨0, 1, 0, 0⟩ : Quat) := by
    rw [UnitQuaternion.from_quaternion, hn]
    apply Quaternion.ext <;> simp [qscale]
  have hraw : (AnimationAngle.deconstructRaw (.Quternion ⟨0, 1 / 10000, 0, 0⟩)).1 =
      (⟨0, 1, 0, 0⟩ : Quat) := by
    simp only [AnimationAngle.deconstructRaw, hfq]
  have hguard : ¬ (nsq (AnimationAngle.deconstructRaw
      (.Quternion ⟨0, 1 / 10000, 0, 0⟩)).1 < 1e-6) := by
    rw [hraw]
    simp only [nsq]
    norm_num
  have h1 : (AnimationAngle.deconstruct (.Quternion ⟨0, 1 / 10000, 0, 0⟩)).1 =
      (⟨0, 1, 0, 0⟩ : Quat) := by
    simp only [AnimationAngle.deconstruct]
    rw [if_neg hguard, hraw]
  refine ⟨by rw [hnsq]; norm_num, h1, ?_, ?_⟩
  · rw [h1]
    intro hcontra
    have := congrArg Quaternion.imI hcontra
    simp at this
  · rw [h1]
    intro hcontra
    have := congrArg Mat3.m11 hcontra
    simp [UnitQuaternion.to_rotation_matrix, Mat3.id] at this
    norm_num at this

/-- C2 (amended): whenever the quaternion computed inside `deconstruct`
(after normalization, i.e. the quaternion of `deconstructRaw`) has squared
magnitude below 1e-6, the unit-quaternion component of the result is the
identity quaternion (1,0,0,0). -/
theorem c2_degenerate_guard (a : AnimationAngle)
    (h : nsq (AnimationAngle.deconstructRaw a).1 < 1e-6) :
    (AnimationAngle.deconstruct a).1 = ⟨1, 0, 0, 0⟩ := by
  have hone : UnitQuaternion.from_quaternion ⟨1, 0, 0, 0⟩ = (⟨1, 0, 0, 0⟩ : Quat) := by
    have hn : qnorm (⟨1, 0, 0, 0⟩ : Quat) = 1 := by
      rw [qnorm]
      simp [nsq]
    rw [UnitQuaternion.from_quaternion, hn]
    apply Quaternion.ext <;> simp [qscale]
  simp only [AnimationAngle.deconstruct]
  rw [if_pos h, hone]

/-- Witness for C2 at the zero quaternion input, whose normalization is the
zero quaternion (squared magnitude 0 < 1e-6), so the guard fires. -/
theorem c2_degenerate_guard_witness :
    nsq (AnimationAngle.deconstructRaw (.Quternion 0)).1 < 1e-6 ∧
    (AnimationAngle.deconstruct (.Quternion 0)).1 = ⟨1, 0, 0, 0⟩ := by
  have h : nsq (AnimationAngle.deconstructRaw (.Quternion 0)).1 < 1e-6 := by
    simp only [AnimationAngle.deconstructRaw, UnitQuaternion.from_quaternion]
    simp [qscale, nsq]
    norm_num
  exact ⟨h, c2_degenerate_guard _ h⟩

/-! ## Fold-minimum lemmas for the winding reduce -/

theorem foldl_minBy_mem (score : Quat × Quat → ℝ) :
    ∀ (l : List (Quat × Quat)) (x : Quat × Quat),
      l.foldl (fun a b => if score a < score b then a else b) x ∈ x :: l
  | [], _ => List.mem_singleton.mpr rfl
  | y :: l, x => by
    simp only [List.foldl_cons]
    have h := foldl_minBy_mem score l (if score x < score y then x else y)
    rcases List.mem_cons.mp h with h | h
    · rw [h]
      split
      · exact List.mem_cons_self _ _
      · exact List.mem_cons_of_mem _ (List.mem_cons_self _ _)
    · exact List.mem_cons_of_mem _ (List.mem_cons_of_mem _ h)

theorem foldl_minBy_le (score : Quat × Quat → ℝ) :
    ∀ (l : List (Quat × Quat)) (x y : Quat × Quat), y ∈ x :: l →
      score (l.foldl (fun a b => if score a < score b then a else b) x) ≤ score y
  | [], x, y, hy => by
    rcases List.mem_cons.mp hy with rfl | hy
    · exact le_refl _
    · exact absurd hy (List.not_mem_nil _)
  | z :: l, x, y, hy => by
    simp only [List.foldl_cons]
    have hacc1 : score (if score x < score z then x else z) ≤ score x := by
      split
      · exact le_refl _
      · exact le_of_not_lt (by assumption)
    have hacc2 : score (if score x < score z then x else z) ≤ score z := by
      split
      · exact le_of_lt (by assumption)
      · exact le_refl _
    rcases List.mem_cons.mp hy with rfl | hy2
    · exact le_trans
        (foldl_minBy_le score l _ _ (List.mem_cons_self _ _)) hacc1
    rcases List.mem_cons.mp hy2 with rfl | hy3
    · exact le_trans
        (foldl_minBy_le score l _ _ (List.mem_cons_self _ _)) hacc2
    · exact foldl_minBy_le score l _ y (List.mem_cons_of_mem _ hy3)

theorem windingOptions_cons (bq eq' : Quat) :
    ∃ p rest, windingOptions bq eq' = p :: rest :=
  ⟨_, _, rfl⟩

theorem reduceMinByScore_windingOptions (bq eq' : Quat) :
    ∃ m, reduceMinByScore (windingOptions bq eq') = some m ∧
      m ∈ windingOptions bq eq' ∧
      ∀ p ∈ windingOptions bq eq', pairScore m ≤ pairScore p := by
  obtain ⟨p, rest, hw⟩ := windingOptions_cons bq eq'
  refine ⟨rest.foldl (fun a b => if pairScore a < pairScore b then a else b) p,
    by rw [hw]; rfl, ?_, ?_⟩
  · rw [hw]
    exact foldl_minBy_mem pairScore rest p
  · intro o ho
    rw [hw] at ho
    exact foldl_minBy_le pairScore rest p o ho

/-! ## Claim theorems: C1 -/

theorem get_normalized_angles_euler_begin (v : Vec3) (e : AnimationAngle) :
    AnimationAngle.get_normalized_angles (.Euler v) e =
      (UnitQuaternion.from_euler_angles
          (AnimationAngle.resolvedEulerPair (.Euler v) e).1.x
          (AnimationAngle.resolvedEulerPair (.Euler v) e).1.y
          (AnimationAngle.resolvedEulerPair (.Euler v) e).1.z,
        (AnimationAngle.resolvedEulerPair (.Euler v) e).1,
        UnitQuaternion.from_euler_angles
          (AnimationAngle.resolvedEulerPair (.Euler v) e).2.x
          (AnimationAngle.resolvedEulerPair (.Euler v) e).2.y
          (AnimationAngle.resolvedEulerPair (.Euler v) e).2.z,
        (AnimationAngle.resolvedEulerPair (.Euler v) e).2) := rfl

theorem get_normalized_angles_quat_begin (q : Quat) (e : AnimationAngle)
    (m : Quat × Quat)
    (hm : reduceMinByScore (windingOptions
        (AnimationAngle.deconstruct (.Quternion q)).1
        (AnimationAngle.deconstruct e).1) = some m) :
    AnimationAngle.get_normalized_angles (.Quternion q) e =
      (m.1, (AnimationAngle.resolvedEulerPair (.Quternion q) e).1,
       m.2, (AnimationAngle.resolvedEulerPair (.Quternion q) e).2) := by
  unfold AnimationAngle.get_normalized_angles
  dsimp only
  rw [hm]
  rfl

/-- C1 (amended): the winding-disambiguation search is performed iff the
BEGIN endpoint was supplied as a quaternion variant (the code inspects only
`begin`).  When the begin endpoint is an Euler variant the search is skipped
and both quaternions are reconstructed from the already
shortest-path-resolved Euler pair; when the begin endpoint is a quaternion
variant, the returned quaternion pair is an element of the 686 options
(343 candidate composite rotations `a` from two rounds of pairwise
composition of the 7 generators, each giving `(a·beginQuat, endQuat)` and
`(beginQuat, a·endQuat)`) with globally minimal squared euclidean distance. -/
theorem c1_winding_search_on_begin_variant (b e : AnimationAngle) :
    (∀ v : Vec3, b = .Euler v →
      AnimationAngle.get_normalized_angles b e =
        (UnitQuaternion.from_euler_angles
            (AnimationAngle.resolvedEulerPair b e).1.x
            (AnimationAngle.resolvedEulerPair b e).1.y
            (AnimationAngle.resolvedEulerPair b e).1.z,
          (AnimationAngle.resolvedEulerPair b e).1,
          UnitQuaternion.from_euler_angles
            (AnimationAngle.resolvedEulerPair b e).2.x
            (AnimationAngle.resolvedEulerPair b e).2.y
            (AnimationAngle.resolvedEulerPair b e).2.z,
          (AnimationAngle.resolvedEulerPair b e).2)) ∧
    (∀ q : Quat, b = .Quternion q →
      ((AnimationAngle.get_normalized_angles b e).1,
          (AnimationAngle.get_normalized_angles b e).2.2.1) ∈
        windingOptions (AnimationAngle.deconstruct b).1
          (AnimationAngle.deconstruct e).1 ∧
      ∀ p ∈ windingOptions (AnimationAngle.deconstruct b).1
          (AnimationAngle.deconstruct e).1,
        pairScore ((AnimationAngle.get_normalized_angles b e).1,
          (AnimationAngle.get_normalized_angles b e).2.2.1) ≤ pairScore p) := by
  constructor
  · rintro v rfl
    exact get_normalized_angles_euler_begin v e
  · rintro q rfl
    obtain ⟨m, hm, hmem, hmin⟩ := reduceMinByScore_windingOptions
      (AnimationAngle.deconstruct (.Quternion q)).1 (AnimationAngle.deconstruct e).1
    have hg := get_normalized_angles_quat_begin q e m hm
    rw [hg]
    exact ⟨hmem, hmin⟩

/-- Witness for C1 on both branches: an Euler begin endpoint (search
skipped, reconstruction) and a quaternion begin endpoint (search result is
a minimal option). -/
theorem c1_winding_search_on_begin_variant_witness :
    (AnimationAngle.get_normalized_angles (.Euler ⟨0, 0, 0⟩) (.Euler ⟨0, 0, 0⟩) =
      (UnitQuaternion.from_euler_angles
          (AnimationAngle.resolvedEulerPair (.Euler ⟨0, 0, 0⟩) (.Euler ⟨0, 0, 0⟩)).1.x
          (AnimationAngle.resolvedEulerPair (.Euler ⟨0, 0, 0⟩) (.Euler ⟨0, 0, 0⟩)).1.y
          (AnimationAngle.resolvedEulerPair (.Euler ⟨0, 0, 0⟩) (.Euler ⟨0, 0, 0⟩)).1.z,
        (AnimationAngle.resolvedEulerPair (.Euler ⟨0, 0, 0⟩) (.Euler ⟨0, 0, 0⟩)).1,
        UnitQuaternion.from_euler_angles
          (AnimationAngle.resolvedEulerPair (.Euler ⟨0, 0, 0⟩) (.Euler ⟨0, 0, 0⟩)).2.x
          (AnimationAngle.resolvedEulerPair (.Euler ⟨0, 0, 0⟩) (.Euler ⟨0, 0, 0⟩)).2.y
          (AnimationAngle.resolvedEulerPair (.Euler ⟨0, 0, 0⟩) (.Euler ⟨0, 0, 0⟩)).2.z,
        (AnimationAngle.resolvedEulerPair (.Euler ⟨0, 0, 0⟩) (.Euler ⟨0, 0, 0⟩)).2)) ∧
    (((AnimationAngle.get_normalized_angles (.Quternion ⟨1, 0, 0, 0⟩) (.Quternion ⟨1, 0, 0, 0⟩)).1,
        (AnimationAngle.get_normalized_angles (.Quternion ⟨1, 0, 0, 0⟩) (.Quternion ⟨1, 0, 0, 0⟩)).2.2.1) ∈
      windingOptions (AnimationAngle.deconstruct (.Quternion ⟨1, 0, 0, 0⟩)).1
        (AnimationAngle.deconstruct (.Quternion ⟨1, 0, 0, 0⟩)).1) :=
  ⟨(c1_winding_search_on_begin_variant (.Euler ⟨0, 0, 0⟩) (.Euler ⟨0, 0, 0⟩)).1
      ⟨0, 0, 0⟩ rfl,
   ((c1_winding_search_on_begin_variant (.Quternion ⟨1, 0, 0, 0⟩)
      (.Quternion ⟨1, 0, 0, 0⟩)).2 ⟨1, 0, 0, 0⟩ rfl).1⟩

/-! ## Evaluation lemmas for the C1 counterexample -/

theorem normalize_angle_id (a : ℝ) (h0 : 0 ≤ a) (h1 : a ≤ π) :
    AnimationAngle.normalize_angle a = a := by
  have hpi := Real.pi_pos
  have hfl : ftrunc (a / (2 * π)) = 0 := by
    rw [ftrunc, if_pos (by positivity)]
    norm_cast
    rw [Int.floor_eq_zero_iff]
    exact ⟨by positivity, by rw [div_lt_one (by positivity)]; linarith⟩
  have hfrem : frem a (2 * π) = a := by
    rw [frem, hfl]
    ring
  have hna : normalized_angle a = a := by
    rw [normalized_angle]
    rw [hfrem, if_neg (not_lt.mpr h1), if_neg (not_lt.mpr (by linarith))]
  rw [AnimationAngle.normalize_angle, hna, if_pos h0]

theorem from_euler_angles_zero :
    UnitQuaternion.from_euler_angles 0 0 0 = (⟨1, 0, 0, 0⟩ : Quat) := by
  unfold UnitQuaternion.from_euler_angles
  apply Quaternion.ext <;> norm_num

theorem from_euler_angles_two_pi_x :
    UnitQuaternion.from_euler_angles (2 * π) 0 0 = (⟨-1, 0, 0, 0⟩ : Quat) := by
  unfold UnitQuaternion.from_euler_angles
  rw [show (2 * π / 2 : ℝ) = π from by ring]
  apply Quaternion.ext <;> norm_num [Real.sin_pi, Real.cos_pi]

theorem from_euler_angles_neg_two_pi_x :
    UnitQuaternion.from_euler_angles (-(2 * π)) 0 0 = (⟨-1, 0, 0, 0⟩ : Quat) := by
  unfold UnitQuaternion.from_euler_angles
  rw [show (-(2 * π) / 2 : ℝ) = -π from by ring]
  apply Quaternion.ext <;>
    norm_num [Real.sin_neg, Real.cos_neg, Real.sin_pi, Real.cos_pi]

theorem from_euler_angles_two_pi_y :
    UnitQuaternion.from_euler_angles 0 (2 * π) 0 = (⟨-1, 0, 0, 0⟩ : Quat) := by
  unfold UnitQuaternion.from_euler_angles
  rw [show (2 * π / 2 : ℝ) = π from by ring]
  apply Quaternion.ext <;> norm_num [Real.sin_pi, Real.cos_pi]

theorem from_euler_angles_neg_two_pi_y :
    UnitQuaternion.from_euler_angles 0 (-(2 * π)) 0 = (⟨-1, 0, 0, 0⟩ : Quat) := by
  unfold UnitQuaternion.from_euler_angles
  rw [show (-(2 * π) / 2 : ℝ) = -π from by ring]
  apply Quaternion.ext <;>
    norm_num [Real.sin_neg, Real.cos_neg, Real.sin_pi, Real.cos_pi]

theorem from_euler_angles_two_pi_z :
    UnitQuaternion.from_euler_angles 0 0 (2 * π) = (⟨-1, 0, 0, 0⟩ : Quat) := by
  unfold UnitQuaternion.from_euler_angles
  rw [show (2 * π / 2 : ℝ) = π from by ring]
  apply Quaternion.ext <;> norm_num [Real.sin_pi, Real.cos_pi]

theorem from_euler_angles_neg_two_pi_z :
    UnitQuaternion.from_euler_angles 0 0 (-(2 * π)) = (⟨-1, 0, 0, 0⟩ : Quat) := by
  unfold UnitQuaternion.from_euler_angles
  rw [show (-(2 * π) / 2 : ℝ) = -π from by ring]
  apply Quaternion.ext <;>
    norm_num [Real.sin_neg, Real.cos_neg, Real.sin_pi, Real.cos_pi]

theorem mem_windingCandidates (f g h : Quat)
    (hf : f ∈ windingQs) (hg : g ∈ windingQs) (hh : h ∈ windingQs) :
    (f * g) * h ∈ windingCandidates := by
  unfold windingCandidates
  refine List.mem_flatMap.mpr ⟨f * g, ?_, ?_⟩
  · exact List.mem_flatMap.mpr ⟨f, hf, List.mem_map.mpr ⟨g, hg, rfl⟩⟩
  · exact List.mem_map.mpr ⟨h, hh, rfl⟩

theorem mem_windingOptions_left (a bq eq' : Quat) (ha : a ∈ windingCandidates) :
    (a * bq, eq') ∈ windingOptions bq eq' := by
  unfold windingOptions
  exact List.mem_flatMap.mpr ⟨a, ha, by simp⟩

theorem neg_one_mem_windingCandidates :
    ∃ a ∈ windingCandidates, a = (⟨-1, 0, 0, 0⟩ : Quat) := by
  refine ⟨(UnitQuaternion.from_euler_angles (2 * π) 0 0 *
      UnitQuaternion.from_euler_angles 0 0 0) *
      UnitQuaternion.from_euler_angles 0 0 0,
    mem_windingCandidates _ _ _ ?_ ?_ ?_, ?_⟩
  · simp [windingQs]
  · simp [windingQs]
  · simp [windingQs]
  · rw [from_euler_angles_two_pi_x, from_euler_angles_zero]
    apply Quaternion.ext <;> simp [Quaternion.mul_re, Quaternion.mul_imI,
      Quaternion.mul_imJ, Quaternion.mul_imK]

theorem atan2_zero_neg_one : atan2 0 (-1) = π := by
  unfold atan2
  rw [if_neg (by norm_num), if_pos (by norm_num : (-1 : ℝ) < 0),
    if_pos (le_refl (0 : ℝ))]
  norm_num [Real.arctan_zero]

theorem atan2_zero_one : atan2 0 1 = 0 := by
  unfold atan2
  rw [if_pos (by norm_num : (0 : ℝ) < 1)]
  norm_num [Real.arctan_zero]

theorem from_euler_eval_c1_begin :
    UnitQuaternion.from_euler_angles 0 (π / 3) π =
      (⟨0, -(1 / 2), 0, Real.sqrt 3 / 2⟩ : Quat) := by
  unfold UnitQuaternion.from_euler_angles
  rw [show (π / 3 / 2 : ℝ) = π / 6 from by ring]
  apply Quaternion.ext <;>
    norm_num [Real.sin_pi_div_six, Real.cos_pi_div_six, Real.sin_pi_div_two,
      Real.cos_pi_div_two]

theorem from_euler_eval_c1_end :
    UnitQuaternion.from_euler_angles π (π / 3) 0 =
      (⟨0, Real.sqrt 3 / 2, 0, -(1 / 2)⟩ : Quat) := by
  unfold UnitQuaternion.from_euler_angles
  rw [show (π / 3 / 2 : ℝ) = π / 6 from by ring]
  apply Quaternion.ext <;>
    norm_num [Real.sin_pi_div_six, Real.cos_pi_div_six, Real.sin_pi_div_two,
      Real.cos_pi_div_two]

theorem deconstruct_eval_c1_begin :
    AnimationAngle.deconstruct (.Euler ⟨0, π / 3, π⟩) =
      (⟨0, -(1 / 2), 0, Real.sqrt 3 / 2⟩, ⟨0, π / 3, π⟩) := by
  have hpi := Real.pi_pos
  have h0 : AnimationAngle.normalize_angle 0 = 0 :=
    normalize_angle_id 0 le_rfl (le_of_lt hpi)
  have h3 : AnimationAngle.normalize_angle (π / 3) = π / 3 :=
    normalize_angle_id _ (by positivity) (by linarith)
  have hp : AnimationAngle.normalize_angle π = π :=
    normalize_angle_id _ (by positivity) le_rfl
  have hraw : AnimationAngle.deconstructRaw (.Euler ⟨0, π / 3, π⟩) =
      (⟨0, -(1 / 2), 0, Real.sqrt 3 / 2⟩, ⟨0, π / 3, π⟩) := by
    unfold AnimationAngle.deconstructRaw
    dsimp only
    rw [h0, h3, hp, from_euler_eval_c1_begin]
  have hnsq : nsq (⟨0, -(1 / 2), 0, Real.sqrt 3 / 2⟩ : Quat) = 1 := by
    simp only [nsq]
    have hs3 : Real.sqrt 3 ^ 2 = 3 := Real.sq_sqrt (by norm_num)
    nlinarith [hs3]
  unfold AnimationAngle.deconstruct
  rw [hraw]
  dsimp only
  rw [hnsq, if_neg (by norm_num), h0, h3, hp]

theorem to_rotation_matrix_eval_c1 :
    UnitQuaternion.to_rotation_matrix ⟨0, Real.sqrt 3 / 2, 0, -(1 / 2)⟩ =
      ⟨1 / 2, 0, -(Real.sqrt 3 / 2), 0, -1, 0, -(Real.sqrt 3 / 2), 0, -(1 / 2)⟩ := by
  have hs3 : Real.sqrt 3 ^ 2 = 3 := Real.sq_sqrt (by norm_num)
  unfold UnitQuaternion.to_rotation_matrix
  apply Mat3.ext <;> dsimp only <;> linarith [hs3]

theorem euler_angles_eval_c1 :
    Rotation3.euler_angles
      ⟨1 / 2, 0, -(Real.sqrt 3 / 2), 0, -1, 0, -(Real.sqrt 3 / 2), 0, -(1 / 2)⟩ =
      (π, π / 3, 0) := by
  have hpi := Real.pi_pos
  have hs3 : Real.sqrt 3 ^ 2 = 3 := Real.sq_sqrt (by norm_num)
  have hs3nn : (0 : ℝ) ≤ Real.sqrt 3 := Real.sqrt_nonneg 3
  have habs : |(-(Real.sqrt 3 / 2) : ℝ)| < 1 := by
    rw [abs_neg, abs_of_nonneg (by positivity)]
    nlinarith [hs3]
  have hasin : Real.arcsin (Real.sqrt 3 / 2) = π / 3 := by
    rw [← Real.sin_pi_div_three]
    exact Real.arcsin_sin (by linarith) (by linarith)
  unfold Rotation3.euler_angles
  dsimp only
  rw [if_pos habs, Real.arcsin_neg, neg_neg, hasin, Real.cos_pi_div_three]
  norm_num [atan2_zero_neg_one, atan2_zero_one]

theorem deconstruct_eval_c1_end :
    AnimationAngle.deconstruct (.Quternion ⟨0, Real.sqrt 3 / 2, 0, -(1 / 2)⟩) =
      (⟨0, Real.sqrt 3 / 2, 0, -(1 / 2)⟩, ⟨π, π / 3, 0⟩) := by
  have hpi := Real.pi_pos
  have hs3 : Real.sqrt 3 ^ 2 = 3 := Real.sq_sqrt (by norm_num)
  have hnsq : nsq (⟨0, Real.sqrt 3 / 2, 0, -(1 / 2)⟩ : Quat) = 1 := by
    simp only [nsq]
    nlinarith [hs3]
  have hnorm : qnorm (⟨0, Real.sqrt 3 / 2, 0, -(1 / 2)⟩ : Quat) = 1 := by
    rw [qnorm, hnsq, Real.sqrt_one]
  have hfq : UnitQuaternion.from_quaternion ⟨0, Real.sqrt 3 / 2, 0, -(1 / 2)⟩ =
      (⟨0, Real.sqrt 3 / 2, 0, -(1 / 2)⟩ : Quat) := by
    rw [UnitQuaternion.from_quaternion, hnorm]
    apply Quaternion.ext <;> simp [qscale]
  have h0 : AnimationAngle.normalize_angle 0 = 0 :=
    normalize_angle_id 0 le_rfl (le_of_lt hpi)
  have h3 : AnimationAngle.normalize_angle (π / 3) = π / 3 :=
    normalize_angle_id _ (by positivity) (by linarith)
  have hp : AnimationAngle.normalize_angle π = π :=
    normalize_angle_id _ (by positivity) le_rfl
  have hraw : AnimationAngle.deconstructRaw
      (.Quternion ⟨0, Real.sqrt 3 / 2, 0, -(1 / 2)⟩) =
      (⟨0, Real.sqrt 3 / 2, 0, -(1 / 2)⟩, ⟨π, π / 3, 0⟩) := by
    unfold AnimationAngle.deconstructRaw
    dsimp only
    rw [hfq, UnitQuaternion.euler_angles, to_rotation_matrix_eval_c1,
      euler_angles_eval_c1]
  unfold AnimationAngle.deconstruct
  rw [hraw]
  dsimp only
  rw [hnsq, if_neg (by norm_num), h0, h3, hp]

theorem resolved_eval_c1 :
    AnimationAngle.resolvedEulerPair (.Euler ⟨0, π / 3, π⟩)
      (.Quternion ⟨0, Real.sqrt 3 / 2, 0, -(1 / 2)⟩) =
      (⟨0, π / 3, π⟩, ⟨π, π / 3, 0⟩) := by
  have hpi := Real.pi_pos
  have h1 : AnimationAngle.angles_shortest_path 0 π = (0, π) := by
    unfold AnimationAngle.angles_shortest_path
    rw [if_neg (by simp), if_neg (by simp; linarith)]
  have h2 : AnimationAngle.angles_shortest_path (π / 3) (π / 3) = (π / 3, π / 3) := by
    unfold AnimationAngle.angles_shortest_path
    rw [if_neg (by simp; linarith), if_neg (by simp; linarith)]
  have h3 : AnimationAngle.angles_shortest_path π 0 = (π, 0) := by
    unfold AnimationAngle.angles_shortest_path
    rw [if_neg (by simp; linarith), if_neg (by simp)]
  simp only [AnimationAngle.resolvedEulerPair, deconstruct_eval_c1_begin,
    deconstruct_eval_c1_end]
  rw [h1, h2, h3]

/-- C1 counterexample: with begin = Euler(0, π/3, π) and
end = Quaternion(0, √3/2, 0, −1/2) — one endpoint originally a quaternion —
the code takes the Euler-reconstruction branch (it inspects only `begin`),
returning the pair (b, q) with squared distance 2 + √3, while the candidate
option (−1·b, q) from the claimed search has squared distance 2 − √3 < 2 + √3:
the returned pair is not a minimal-distance option, refuting the claim. -/
theorem c1_counterexample :
    ((AnimationAngle.get_normalized_angles (.Euler ⟨0, π / 3, π⟩)
        (.Quternion ⟨0, Real.sqrt 3 / 2, 0, -(1 / 2)⟩)).1,
      (AnimationAngle.get_normalized_angles (.Euler ⟨0, π / 3, π⟩)
        (.Quternion ⟨0, Real.sqrt 3 / 2, 0, -(1 / 2)⟩)).2.2.1) =
      (⟨0, -(1 / 2), 0, Real.sqrt 3 / 2⟩, ⟨0, Real.sqrt 3 / 2, 0, -(1 / 2)⟩) ∧
    ((⟨0, 1 / 2, 0, -(Real.sqrt 3 / 2)⟩, ⟨0, Real.sqrt 3 / 2, 0, -(1 / 2)⟩) :
        Quat × Quat) ∈
      windingOptions
        (AnimationAngle.deconstruct (.Euler ⟨0, π / 3, π⟩)).1
        (AnimationAngle.deconstruct
          (.Quternion ⟨0, Real.sqrt 3 / 2, 0, -(1 / 2)⟩)).1 ∧
    pairScore (⟨0, 1 / 2, 0, -(Real.sqrt 3 / 2)⟩, ⟨0, Real.sqrt 3 / 2, 0, -(1 / 2)⟩) <
      pairScore ((AnimationAngle.get_normalized_angles (.Euler ⟨0, π / 3, π⟩)
          (.Quternion ⟨0, Real.sqrt 3 / 2, 0, -(1 / 2)⟩)).1,
        (AnimationAngle.get_normalized_angles (.Euler ⟨0, π / 3, π⟩)
          (.Quternion ⟨0, Real.sqrt 3 / 2, 0, -(1 / 2)⟩)).2.2.1) := by
  have hs3 : Real.sqrt 3 ^ 2 = 3 := Real.sq_sqrt (by norm_num)
  have hs3pos : (0 : ℝ) < Real.sqrt 3 := Real.sqrt_pos.mpr (by norm_num)
  have hpair : ((AnimationAngle.get_normalized_angles (.Euler ⟨0, π / 3, π⟩)
        (.Quternion ⟨0, Real.sqrt 3 / 2, 0, -(1 / 2)⟩)).1,
      (AnimationAngle.get_normalized_angles (.Euler ⟨0, π / 3, π⟩)
        (.Quternion ⟨0, Real.sqrt 3 / 2, 0, -(1 / 2)⟩)).2.2.1) =
      ((⟨0, -(1 / 2), 0, Real.sqrt 3 / 2⟩ : Quat),
        (⟨0, Real.sqrt 3 / 2, 0, -(1 / 2)⟩ : Quat)) := by
    rw [get_normalized_angles_euler_begin, resolved_eval_c1]
    dsimp only
    rw [from_euler_eval_c1_begin, from_euler_eval_c1_end]
  refine ⟨hpair, ?_, ?_⟩
  · obtain ⟨a, ha, haeq⟩ := neg_one_mem_windingCandidates
    have hmem := mem_windingOptions_left a ⟨0, -(1 / 2), 0, Real.sqrt 3 / 2⟩
      ⟨0, Real.sqrt 3 / 2, 0, -(1 / 2)⟩ ha
    rw [haeq] at hmem
    have hmul : (⟨-1, 0, 0, 0⟩ : Quat) * ⟨0, -(1 / 2), 0, Real.sqrt 3 / 2⟩ =
        (⟨0, 1 / 2, 0, -(Real.sqrt 3 / 2)⟩ : Quat) := by
      apply Quaternion.ext <;>
        simp [Quaternion.mul_re, Quaternion.mul_imI, Quaternion.mul_imJ,
          Quaternion.mul_imK]
    rw [hmul] at hmem
    rw [deconstruct_eval_c1_begin, deconstruct_eval_c1_end]
    exact hmem
  · rw [hpair]
    simp only [pairScore, nsq, Quaternion.sub_re, Quaternion.sub_imI,
      Quaternion.sub_imJ, Quaternion.sub_imK]
    nlinarith [hs3, hs3pos]

/-! ## Unit-quaternion lemmas -/

theorem nsq_nonneg (q : Quat) : 0 ≤ nsq q := by
  unfold nsq
  positivity

theorem nsq_eq_zero_iff (q : Quat) : nsq q = 0 ↔ q = 0 := by
  constructor
  · intro h
    unfold nsq at h
    apply Quaternion.ext <;> simp <;> nlinarith [sq_nonneg q.re, sq_nonneg q.imI,
      sq_nonneg q.imJ, sq_nonneg q.imK]
  · intro h
    rw [h]
    simp [nsq]

theorem nsq_mul (p q : Quat) : nsq (p * q) = nsq p * nsq q := by
  simp only [nsq, Quaternion.mul_re, Quaternion.mul_imI, Quaternion.mul_imJ,
    Quaternion.mul_imK]
  ring

theorem nsq_qscale (s : ℝ) (q : Quat) : nsq (qscale s q) = s ^ 2 * nsq q := by
  simp only [nsq, qscale]
  ring

theorem nsq_from_euler_angles (r p y : ℝ) :
    nsq (UnitQuaternion.from_euler_angles r p y) = 1 := by
  unfold UnitQuaternion.from_euler_angles nsq
  dsimp only
  have h1 := Real.sin_sq_add_cos_sq (r / 2)
  have h2 := Real.sin_sq_add_cos_sq (p / 2)
  have h3 := Real.sin_sq_add_cos_sq (y / 2)
  linear_combination
    ((Real.sin (p / 2) ^ 2 + Real.cos (p / 2) ^ 2) *
      (Real.sin (y / 2) ^ 2 + Real.cos (y / 2) ^ 2)) * h1 +
    (Real.sin (y / 2) ^ 2 + Real.cos (y / 2) ^ 2) * h2 + h3

theorem nsq_from_quaternion (q : Quat) (h : nsq q ≠ 0) :
    nsq (UnitQuaternion.from_quaternion q) = 1 := by
  have hpos : 0 < nsq q := lt_of_le_of_ne (nsq_nonneg q) (Ne.symm h)
  rw [UnitQuaternion.from_quaternion, nsq_qscale, qnorm, inv_pow,
    Real.sq_sqrt (nsq_nonneg q)]
  field_simp

theorem from_quaternion_of_unit (q : Quat) (h : nsq q = 1) :
    UnitQuaternion.from_quaternion q = q := by
  rw [UnitQuaternion.from_quaternion, qnorm, h, Real.sqrt_one, inv_one]
  apply Quaternion.ext <;> simp [qscale]

theorem from_quaternion_zero : UnitQuaternion.from_quaternion 0 = 0 := by
  rw [UnitQuaternion.from_quaternion]
  apply Quaternion.ext <;> simp [qscale]

theorem nsq_deconstruct (a : AnimationAngle) :
    nsq (AnimationAngle.deconstruct a).1 = 1 := by
  have hone : nsq (UnitQuaternion.from_quaternion ⟨1, 0, 0, 0⟩) = 1 := by
    apply nsq_from_quaternion
    simp [nsq]
  unfold AnimationAngle.deconstruct
  dsimp only
  split
  · exact hone
  · rename_i hguard
    cases a with
    | Euler v =>
      simp only [AnimationAngle.deconstructRaw]
      exact nsq_from_euler_angles _ _ _
    | Quternion q =>
      simp only [AnimationAngle.deconstructRaw] at hguard ⊢
      by_cases hq : nsq q = 0
      · exfalso
        apply hguard
        rw [(nsq_eq_zero_iff q).mp hq, from_quaternion_zero]
        simp [nsq]
        norm_num
      · exact nsq_from_quaternion q hq

/-! ## atan2 on the unit circle -/

theorem atan2_unit (y x : ℝ) (h : x ^ 2 + y ^ 2 = 1) :
    Real.cos (atan2 y x) = x ∧ Real.sin (atan2 y x) = y := by
  unfold atan2
  by_cases hx : 0 < x
  · rw [if_pos hx]
    have hx0 : x ≠ 0 := ne_of_gt hx
    have hs : Real.sqrt (1 + (y / x) ^ 2) = 1 / x := by
      have h1 : 1 + (y / x) ^ 2 = (1 / x) ^ 2 := by
        field_simp
        linarith
      rw [h1, Real.sqrt_sq (by positivity)]
    constructor
    · rw [Real.cos_arctan, hs]
      field_simp
    · rw [Real.sin_arctan, hs]
      field_simp
  · rw [if_neg hx]
    by_cases hx2 : x < 0
    · rw [if_pos hx2]
      have hx0 : x ≠ 0 := ne_of_lt hx2
      have hinv : 1 / x < 0 := div_neg_of_pos_of_neg one_pos hx2
      have hs : Real.sqrt (1 + (y / x) ^ 2) = -(1 / x) := by
        have h1 : 1 + (y / x) ^ 2 = (-(1 / x)) ^ 2 := by
          field_simp
          linarith
        rw [h1, Real.sqrt_sq (by linarith)]
      by_cases hy : 0 ≤ y
      · rw [if_pos hy]
        constructor
        · rw [Real.cos_add_pi, Real.cos_arctan, hs]
          field_simp
        · rw [Real.sin_add_pi, Real.sin_arctan, hs]
          field_simp
      · rw [if_neg hy]
        constructor
        · rw [Real.cos_sub_pi, Real.cos_arctan, hs]
          field_simp
        · rw [Real.sin_sub_pi, Real.sin_arctan, hs]
          field_simp
    · have hx0 : x = 0 := le_antisymm (not_lt.mp hx) (not_lt.mp hx2)
      rw [if_neg hx2]
      subst hx0
      have hy2 : y ^ 2 = 1 := by linarith
      by_cases hy : 0 < y
      · rw [if_pos hy]
        have hy1 : y = 1 := by nlinarith
        rw [hy1, Real.cos_pi_div_two, Real.sin_pi_div_two]
        exact ⟨rfl, rfl⟩
      · rw [if_neg hy]
        have hyneg : y < 0 := by
          rcases lt_trichotomy y 0 with hlt | heq | hgt
          · exact hlt
          · exfalso
            rw [heq] at hy2
            norm_num at hy2
          · exact absurd hgt hy
        rw [if_pos hyneg]
        have hy1 : y = -1 := by nlinarith
        rw [hy1, Real.cos_neg, Real.sin_neg, Real.cos_pi_div_two,
          Real.sin_pi_div_two]
        exact ⟨rfl, rfl⟩

/-! ## Polynomial identities of the quaternion rotation matrix -/

theorem rot_row2_norm (q : Quat) :
    (UnitQuaternion.to_rotation_matrix q).m20 ^ 2 +
      (UnitQuaternion.to_rotation_matrix q).m21 ^ 2 +
      (UnitQuaternion.to_rotation_matrix q).m22 ^ 2 = nsq q ^ 2 := by
  simp only [UnitQuaternion.to_rotation_matrix, nsq]
  ring

theorem rot_col0_norm (q : Quat) :
    (UnitQuaternion.to_rotation_matrix q).m00 ^ 2 +
      (UnitQuaternion.to_rotation_matrix q).m10 ^ 2 +
      (UnitQuaternion.to_rotation_matrix q).m20 ^ 2 = nsq q ^ 2 := by
  simp only [UnitQuaternion.to_rotation_matrix, nsq]
  ring

theorem rot_cofactor01 (q : Quat) :
    -((UnitQuaternion.to_rotation_matrix q).m00 *
        (UnitQuaternion.to_rotation_matrix q).m20 *
        (UnitQuaternion.to_rotation_matrix q).m21) -
      (UnitQuaternion.to_rotation_matrix q).m10 *
        (UnitQuaternion.to_rotation_matrix q).m22 * nsq q =
    (UnitQuaternion.to_rotation_matrix q).m01 *
      (nsq q ^ 2 - (UnitQuaternion.to_rotation_matrix q).m20 ^ 2) := by
  simp only [UnitQuaternion.to_rotation_matrix, nsq]
  ring

theorem rot_cofactor02 (q : Quat) :
    -((UnitQuaternion.to_rotation_matrix q).m00 *
        (UnitQuaternion.to_rotation_matrix q).m20 *
        (UnitQuaternion.to_rotation_matrix q).m22) +
      (UnitQuaternion.to_rotation_matrix q).m10 *
        (UnitQuaternion.to_rotation_matrix q).m21 * nsq q =
    (UnitQuaternion.to_rotation_matrix q).m02 *
      (nsq q ^ 2 - (UnitQuaternion.to_rotation_matrix q).m20 ^ 2) := by
  simp only [UnitQuaternion.to_rotation_matrix, nsq]
  ring

theorem rot_cofactor11 (q : Quat) :
    -((UnitQuaternion.to_rotation_matrix q).m10 *
        (UnitQuaternion.to_rotation_matrix q).m20 *
        (UnitQuaternion.to_rotation_matrix q).m21) +
      (UnitQuaternion.to_rotation_matrix q).m00 *
        (UnitQuaternion.to_rotation_matrix q).m22 * nsq q =
    (UnitQuaternion.to_rotation_matrix q).m11 *
      (nsq q ^ 2 - (UnitQuaternion.to_rotation_matrix q).m20 ^ 2) := by
  simp only [UnitQuaternion.to_rotation_matrix, nsq]
  ring

theorem rot_cofactor12 (q : Quat) :
    -((UnitQuaternion.to_rotation_matrix q).m10 *
        (UnitQuaternion.to_rotation_matrix q).m20 *
        (UnitQuaternion.to_rotation_matrix q).m22) -
      (UnitQuaternion.to_rotation_matrix q).m00 *
        (UnitQuaternion.to_rotation_matrix q).m21 * nsq q =
    (UnitQuaternion.to_rotation_matrix q).m12 *
      (nsq q ^ 2 - (UnitQuaternion.to_rotation_matrix q).m20 ^ 2) := by
  simp only [UnitQuaternion.to_rotation_matrix, nsq]
  ring

/-! ## Euler-angle extraction correctness -/

theorem extraction_main_branch (R : Mat3)
    (hrow : R.m20 ^ 2 + R.m21 ^ 2 + R.m22 ^ 2 = 1)
    (hcol : R.m00 ^ 2 + R.m10 ^ 2 + R.m20 ^ 2 = 1)
    (hco01 : -(R.m00 * R.m20 * R.m21) - R.m10 * R.m22 = R.m01 * (1 - R.m20 ^ 2))
    (hco02 : -(R.m00 * R.m20 * R.m22) + R.m10 * R.m21 = R.m02 * (1 - R.m20 ^ 2))
    (hco11 : -(R.m10 * R.m20 * R.m21) + R.m00 * R.m22 = R.m11 * (1 - R.m20 ^ 2))
    (hco12 : -(R.m10 * R.m20 * R.m22) - R.m00 * R.m21 = R.m12 * (1 - R.m20 ^ 2))
    (hlt : |R.m20| < 1) :
    Rotation3.from_euler_angles
      (atan2 (R.m21 / Real.cos (-Real.arcsin R.m20))
        (R.m22 / Real.cos (-Real.arcsin R.m20)))
      (-Real.arcsin R.m20)
      (atan2 (R.m10 / Real.cos (-Real.arcsin R.m20))
        (R.m00 / Real.cos (-Real.arcsin R.m20))) = R := by
  obtain ⟨hm1, hm2⟩ := abs_lt.mp hlt
  have hc : Real.cos (-Real.arcsin R.m20) = Real.sqrt (1 - R.m20 ^ 2) := by
    rw [Real.cos_neg, Real.cos_arcsin]
  have hcpos : 0 < Real.sqrt (1 - R.m20 ^ 2) := Real.sqrt_pos.mpr (by nlinarith)
  have hc2 : Real.sqrt (1 - R.m20 ^ 2) ^ 2 = 1 - R.m20 ^ 2 :=
    Real.sq_sqrt (by nlinarith)
  have hcne : Real.sqrt (1 - R.m20 ^ 2) ≠ 0 := ne_of_gt hcpos
  have hsp : Real.sin (-Real.arcsin R.m20) = -R.m20 := by
    rw [Real.sin_neg, Real.sin_arcsin (by linarith) (by linarith)]
  rw [hc]
  have hur : (R.m22 / Real.sqrt (1 - R.m20 ^ 2)) ^ 2 +
      (R.m21 / Real.sqrt (1 - R.m20 ^ 2)) ^ 2 = 1 := by
    rw [div_pow, div_pow, hc2, div_add_div_same, div_eq_one_iff_eq (by nlinarith)]
    linarith
  have huy : (R.m00 / Real.sqrt (1 - R.m20 ^ 2)) ^ 2 +
      (R.m10 / Real.sqrt (1 - R.m20 ^ 2)) ^ 2 = 1 := by
    rw [div_pow, div_pow, hc2, div_add_div_same, div_eq_one_iff_eq (by nlinarith)]
    linarith
  obtain ⟨hcr, hsr⟩ := atan2_unit _ _ hur
  obtain ⟨hcy, hsy⟩ := atan2_unit _ _ huy
  unfold Rotation3.from_euler_angles
  apply Mat3.ext <;> dsimp only <;>
    simp only [hc, hcr, hsr, hcy, hsy, hsp] <;>
    field_simp
  · linear_combination (√(1 - R.m20 ^ 2) * √(1 - R.m20 ^ 2)) * hco01 -
      R.m01 * (√(1 - R.m20 ^ 2) * √(1 - R.m20 ^ 2)) * hc2
  · linear_combination (√(1 - R.m20 ^ 2) * √(1 - R.m20 ^ 2)) * hco02 -
      R.m02 * (√(1 - R.m20 ^ 2) * √(1 - R.m20 ^ 2)) * hc2
  · linear_combination (√(1 - R.m20 ^ 2) * √(1 - R.m20 ^ 2)) * hco11 -
      R.m11 * (√(1 - R.m20 ^ 2) * √(1 - R.m20 ^ 2)) * hc2
  · linear_combination (√(1 - R.m20 ^ 2) * √(1 - R.m20 ^ 2)) * hco12 -
      R.m12 * (√(1 - R.m20 ^ 2) * √(1 - R.m20 ^ 2)) * hc2

theorem extraction_gimbal_neg (q : Quat) (h : nsq q = 1)
    (heq : (UnitQuaternion.to_rotation_matrix q).m20 = -1) :
    Rotation3.from_euler_angles
      (atan2 (UnitQuaternion.to_rotation_matrix q).m01
        (UnitQuaternion.to_rotation_matrix q).m02) (π / 2) 0 =
      UnitQuaternion.to_rotation_matrix q := by
  obtain ⟨w, i, j, k⟩ := q
  simp only [nsq] at h
  simp only [UnitQuaternion.to_rotation_matrix] at heq ⊢
  have hsum : (i + k) ^ 2 + (w - j) ^ 2 = 0 := by linear_combination h + heq
  have h1 : (i + k) ^ 2 = 0 := by nlinarith [sq_nonneg (w - j)]
  have h2 : (w - j) ^ 2 = 0 := by nlinarith [sq_nonneg (i + k)]
  have hk : k = -i := by
    have := sq_eq_zero_iff.mp h1
    linarith
  have hj : j = w := by
    have := sq_eq_zero_iff.mp h2
    linarith
  rw [hk, hj] at h ⊢
  have hu : (2 * (i * -i + w * w)) ^ 2 + (2 * (i * w - w * -i)) ^ 2 = 1 := by
    linear_combination (2 * w ^ 2 + 2 * i ^ 2 + 1) * h
  obtain ⟨hcr, hsr⟩ := atan2_unit (2 * (i * w - w * -i)) (2 * (i * -i + w * w)) hu
  unfold Rotation3.from_euler_angles
  apply Mat3.ext <;> dsimp only <;>
    simp only [Real.sin_pi_div_two, Real.cos_pi_div_two, Real.sin_zero,
      Real.cos_zero, hcr, hsr] <;>
    try ring
  linear_combination h

theorem extraction_gimbal_pos (q : Quat) (h : nsq q = 1)
    (heq : (UnitQuaternion.to_rotation_matrix q).m20 = 1) :
    Rotation3.from_euler_angles
      (-atan2 (UnitQuaternion.to_rotation_matrix q).m01
        (-(UnitQuaternion.to_rotation_matrix q).m02)) (-(π / 2)) 0 =
      UnitQuaternion.to_rotation_matrix q := by
  obtain ⟨w, i, j, k⟩ := q
  simp only [nsq] at h
  simp only [UnitQuaternion.to_rotation_matrix] at heq ⊢
  have hsum : (i - k) ^ 2 + (w + j) ^ 2 = 0 := by linear_combination h - heq
  have h1 : (i - k) ^ 2 = 0 := by nlinarith [sq_nonneg (w + j)]
  have h2 : (w + j) ^ 2 = 0 := by nlinarith [sq_nonneg (i - k)]
  have hk : k = i := by
    have := sq_eq_zero_iff.mp h1
    linarith
  have hj : j = -w := by
    have := sq_eq_zero_iff.mp h2
    linarith
  rw [hk, hj] at h ⊢
  have hu : (-(2 * (i * i + w * -w))) ^ 2 + (2 * (i * -w - w * i)) ^ 2 = 1 := by
    linear_combination (2 * w ^ 2 + 2 * i ^ 2 + 1) * h
  obtain ⟨hcr, hsr⟩ := atan2_unit (2 * (i * -w - w * i)) (-(2 * (i * i + w * -w))) hu
  unfold Rotation3.from_euler_angles
  apply Mat3.ext <;> dsimp only <;>
    simp only [Real.sin_neg, Real.cos_neg, Real.sin_pi_div_two,
      Real.cos_pi_div_two, Real.sin_zero, Real.cos_zero, hcr, hsr] <;>
    try ring
  linear_combination -h

/-- nalgebra's Euler-angle extraction is a right inverse of the Euler
rotation construction on rotation matrices of unit quaternions. -/
theorem euler_angles_extraction (q : Quat) (h : nsq q = 1) :
    Rotation3.from_euler_angles
      (UnitQuaternion.euler_angles q).1
      (UnitQuaternion.euler_angles q).2.1
      (UnitQuaternion.euler_angles q).2.2 =
      UnitQuaternion.to_rotation_matrix q := by
  have hrow := rot_row2_norm q
  have hcol := rot_col0_norm q
  have hco01 := rot_cofactor01 q
  have hco02 := rot_cofactor02 q
  have hco11 := rot_cofactor11 q
  have hco12 := rot_cofactor12 q
  rw [h] at hrow hcol hco01 hco02 hco11 hco12
  simp only [one_pow, mul_one] at hrow hcol hco01 hco02 hco11 hco12
  unfold UnitQuaternion.euler_angles Rotation3.euler_angles
  by_cases hlt : |(UnitQuaternion.to_rotation_matrix q).m20| < 1
  · rw [if_pos hlt]
    exact extraction_main_branch _ hrow hcol hco01 hco02 hco11 hco12 hlt
  · rw [if_neg hlt]
    have hb : (UnitQuaternion.to_rotation_matrix q).m20 ^ 2 ≤ 1 := by
      nlinarith [sq_nonneg (UnitQuaternion.to_rotation_matrix q).m21,
        sq_nonneg (UnitQuaternion.to_rotation_matrix q).m22]
    have hub : (UnitQuaternion.to_rotation_matrix q).m20 ≤ 1 := by nlinarith
    have hlb : -1 ≤ (UnitQuaternion.to_rotation_matrix q).m20 := by nlinarith
    by_cases hneg : (UnitQuaternion.to_rotation_matrix q).m20 ≤ -1
    · rw [if_pos hneg]
      exact extraction_gimbal_neg q h (le_antisymm hneg hlb)
    · rw [if_neg hneg]
      have hge : 1 ≤ |(UnitQuaternion.to_rotation_matrix q).m20| := not_lt.mp hlt
      have heq : (UnitQuaternion.to_rotation_matrix q).m20 = 1 := by
        rcases abs_cases (UnitQuaternion.to_rotation_matrix q).m20 with
          ⟨habs, _⟩ | ⟨habs, _⟩
        · exact le_antisymm hub (by rw [habs] at hge; exact hge)
        · exfalso
          rw [habs] at hge
          exact hneg (by linarith)
      exact extraction_gimbal_pos q h heq

/-! ## Quaternion-to-matrix consistency with the Euler construction -/

theorem to_rotation_matrix_mul (p q : Quat) :
    UnitQuaternion.to_rotation_matrix (p * q) =
      Mat3.mul (UnitQuaternion.to_rotation_matrix p)
        (UnitQuaternion.to_rotation_matrix q) := by
  apply Mat3.ext <;>
    simp only [UnitQuaternion.to_rotation_matrix, Mat3.mul, Quaternion.mul_re,
      Quaternion.mul_imI, Quaternion.mul_imJ, Quaternion.mul_imK] <;>
    ring

theorem from_euler_angles_decompose (r p y : ℝ) :
    UnitQuaternion.from_euler_angles r p y =
      ((⟨Real.cos (y / 2), 0, 0, Real.sin (y / 2)⟩ : Quat) *
        (⟨Real.cos (p / 2), 0, Real.sin (p / 2), 0⟩ : Quat)) *
        (⟨Real.cos (r / 2), Real.sin (r / 2), 0, 0⟩ : Quat) := by
  apply Quaternion.ext <;>
    simp only [UnitQuaternion.from_euler_angles, QuaternionAlgebra.mk_mul_mk] <;>
    ring

theorem rot_quatX (r : ℝ) :
    UnitQuaternion.to_rotation_matrix ⟨Real.cos (r / 2), Real.sin (r / 2), 0, 0⟩ =
      Rotation3.from_euler_angles r 0 0 := by
  have h1 := Real.sin_sq_add_cos_sq (r / 2)
  have hc := Real.cos_two_mul (r / 2)
  rw [show 2 * (r / 2) = r from by ring] at hc
  have hs := Real.sin_two_mul (r / 2)
  rw [show 2 * (r / 2) = r from by ring] at hs
  apply Mat3.ext <;>
    simp only [UnitQuaternion.to_rotation_matrix, Rotation3.from_euler_angles,
      Real.sin_zero, Real.cos_zero] <;>
    nlinarith [h1, hc, hs]

theorem rot_quatY (p : ℝ) :
    UnitQuaternion.to_rotation_matrix ⟨Real.cos (p / 2), 0, Real.sin (p / 2), 0⟩ =
      Rotation3.from_euler_angles 0 p 0 := by
  have h1 := Real.sin_sq_add_cos_sq (p / 2)
  have hc := Real.cos_two_mul (p / 2)
  rw [show 2 * (p / 2) = p from by ring] at hc
  have hs := Real.sin_two_mul (p / 2)
  rw [show 2 * (p / 2) = p from by ring] at hs
  apply Mat3.ext <;>
    simp only [UnitQuaternion.to_rotation_matrix, Rotation3.from_euler_angles,
      Real.sin_zero, Real.cos_zero] <;>
    nlinarith [h1, hc, hs]

theorem rot_quatZ (y : ℝ) :
    UnitQuaternion.to_rotation_matrix ⟨Real.cos (y / 2), 0, 0, Real.sin (y / 2)⟩ =
      Rotation3.from_euler_angles 0 0 y := by
  have h1 := Real.sin_sq_add_cos_sq (y / 2)
  have hc := Real.cos_two_mul (y / 2)
  rw [show 2 * (y / 2) = y from by ring] at hc
  have hs := Real.sin_two_mul (y / 2)
  rw [show 2 * (y / 2) = y from by ring] at hs
  apply Mat3.ext <;>
    simp only [UnitQuaternion.to_rotation_matrix, Rotation3.from_euler_angles,
      Real.sin_zero, Real.cos_zero] <;>
    nlinarith [h1, hc, hs]

theorem R3_decompose (r p y : ℝ) :
    Rotation3.from_euler_angles r p y =
      Mat3.mul (Mat3.mul (Rotation3.from_euler_angles 0 0 y)
        (Rotation3.from_euler_angles 0 p 0)) (Rotation3.from_euler_angles r 0 0) := by
  apply Mat3.ext <;>
    simp only [Rotation3.from_euler_angles, Mat3.mul, Real.sin_zero,
      Real.cos_zero] <;>
    ring

/-- nalgebra's quaternion-to-matrix conversion agrees with the direct Euler
rotation-matrix construction on `from_euler_angles` quaternions. -/
theorem to_rotation_matrix_from_euler (r p y : ℝ) :
    UnitQuaternion.to_rotation_matrix (UnitQuaternion.from_euler_angles r p y) =
      Rotation3.from_euler_angles r p y := by
  rw [from_euler_angles_decompose, to_rotation_matrix_mul, to_rotation_matrix_mul,
    rot_quatX, rot_quatY, rot_quatZ, ← R3_decompose]

/-! ## Congruence modulo 2π -/

theorem frem_two_pi_congr (a : ℝ) :
    ∃ n : ℤ, frem a (2 * π) = a + n * (2 * π) := by
  unfold frem ftrunc
  split
  · exact ⟨-⌊a / (2 * π)⌋, by push_cast; ring⟩
  · exact ⟨-⌈a / (2 * π)⌉, by push_cast; ring⟩

theorem normalized_angle_congr (a : ℝ) :
    ∃ n : ℤ, normalized_angle a = a + n * (2 * π) := by
  obtain ⟨n, hn⟩ := frem_two_pi_congr a
  have h : normalized_angle a =
      if frem a (2 * π) > π then frem a (2 * π) - 2 * π
      else if frem a (2 * π) < -π then frem a (2 * π) + 2 * π
      else frem a (2 * π) := rfl
  rw [h, hn]
  split_ifs
  · exact ⟨n - 1, by push_cast; ring⟩
  · exact ⟨n + 1, by push_cast; ring⟩
  · exact ⟨n, rfl⟩

theorem normalize_angle_congr (a : ℝ) :
    ∃ n : ℤ, AnimationAngle.normalize_angle a = a + n * (2 * π) := by
  obtain ⟨n, hn⟩ := normalized_angle_congr a
  have h : AnimationAngle.normalize_angle a =
      if 0 ≤ normalized_angle a then normalized_angle a
      else normalized_angle a + 2 * π := rfl
  rw [h, hn]
  split_ifs
  · exact ⟨n, rfl⟩
  · exact ⟨n + 1, by push_cast; ring⟩

theorem angles_shortest_path_congr (b e : ℝ) :
    (∃ n : ℤ, (AnimationAngle.angles_shortest_path b e).1 = b + n * (2 * π)) ∧
    (∃ n : ℤ, (AnimationAngle.angles_shortest_path b e).2 = e + n * (2 * π)) := by
  unfold AnimationAngle.angles_shortest_path
  split_ifs
  · exact ⟨⟨0, by simp⟩, ⟨-1, by simp only; push_cast; ring⟩⟩
  · exact ⟨⟨0, by simp⟩, ⟨1, by simp only; push_cast; ring⟩⟩
  · exact ⟨⟨1, by simp only; push_cast; ring⟩, ⟨0, by simp⟩⟩
  · exact ⟨⟨-1, by simp only; push_cast; ring⟩, ⟨0, by simp⟩⟩
  · exact ⟨⟨0, by simp⟩, ⟨0, by simp⟩⟩

theorem R3_congr (r p y r' p' y' : ℝ)
    (hr : ∃ n : ℤ, r' = r + n * (2 * π))
    (hp : ∃ n : ℤ, p' = p + n * (2 * π))
    (hy : ∃ n : ℤ, y' = y + n * (2 * π)) :
    Rotation3.from_euler_angles r' p' y' = Rotation3.from_euler_angles r p y := by
  obtain ⟨nr, hnr⟩ := hr
  obtain ⟨np, hnp⟩ := hp
  obtain ⟨ny, hny⟩ := hy
  subst hnr hnp hny
  unfold Rotation3.from_euler_angles
  simp only [Real.sin_add_int_mul_two_pi, Real.cos_add_int_mul_two_pi]

/-! ## The deconstructed Euler triple and quaternion agree as rotations -/

theorem deconstruct_euler_eval (v : Vec3) :
    AnimationAngle.deconstruct (.Euler v) =
      (UnitQuaternion.from_euler_angles (AnimationAngle.normalize_angle v.x)
        (AnimationAngle.normalize_angle v.y) (AnimationAngle.normalize_angle v.z),
       ⟨AnimationAngle.normalize_angle (AnimationAngle.normalize_angle v.x),
        AnimationAngle.normalize_angle (AnimationAngle.normalize_angle v.y),
        AnimationAngle.normalize_angle (AnimationAngle.normalize_angle v.z)⟩) := by
  unfold AnimationAngle.deconstruct AnimationAngle.deconstructRaw
  dsimp only
  rw [if_neg (by rw [nsq_from_euler_angles]; norm_num)]

theorem from_quaternion_small_eq_zero (q : Quat)
    (h : nsq (UnitQuaternion.from_quaternion q) < 1e-6) :
    UnitQuaternion.from_quaternion q = 0 := by
  by_cases hq : nsq q = 0
  · rw [(nsq_eq_zero_iff q).mp hq, from_quaternion_zero]
  · exfalso
    rw [nsq_from_quaternion q hq] at h
    norm_num at h

theorem to_rotation_matrix_zero :
    UnitQuaternion.to_rotation_matrix 0 = ⟨0, 0, 0, 0, 0, 0, 0, 0, 0⟩ := by
  unfold UnitQuaternion.to_rotation_matrix
  apply Mat3.ext <;> simp

theorem to_rotation_matrix_one :
    UnitQuaternion.to_rotation_matrix ⟨1, 0, 0, 0⟩ = ⟨1, 0, 0, 0, 1, 0, 0, 0, 1⟩ := by
  unfold UnitQuaternion.to_rotation_matrix
  apply Mat3.ext <;> norm_num

theorem atan2_zero_zero : atan2 0 0 = 0 := by
  unfold atan2
  norm_num

theorem euler_angles_zero_matrix :
    Rotation3.euler_angles ⟨0, 0, 0, 0, 0, 0, 0, 0, 0⟩ = (0, 0, 0) := by
  unfold Rotation3.euler_angles
  rw [if_pos (by norm_num)]
  norm_num [Real.arcsin_zero, atan2_zero_zero]

theorem R3_zero_eval :
    Rotation3.from_euler_angles 0 0 0 = ⟨1, 0, 0, 0, 1, 0, 0, 0, 1⟩ := by
  unfold Rotation3.from_euler_angles
  apply Mat3.ext <;> norm_num

/-- The Euler triple and the unit quaternion produced by `deconstruct`
represent the same rotation matrix. -/
theorem deconstruct_euler_rot (a : AnimationAngle) :
    Rotation3.from_euler_angles (AnimationAngle.deconstruct a).2.x
      (AnimationAngle.deconstruct a).2.y (AnimationAngle.deconstruct a).2.z =
      UnitQuaternion.to_rotation_matrix (AnimationAngle.deconstruct a).1 := by
  cases a with
  | Euler v =>
    rw [deconstruct_euler_eval]
    dsimp only
    rw [to_rotation_matrix_from_euler]
    exact R3_congr (AnimationAngle.normalize_angle v.x)
      (AnimationAngle.normalize_angle v.y) (AnimationAngle.normalize_angle v.z)
      _ _ _ (normalize_angle_congr _) (normalize_angle_congr _)
      (normalize_angle_congr _)
  | Quternion q =>
    unfold AnimationAngle.deconstruct AnimationAngle.deconstructRaw
    dsimp only
    by_cases hg : nsq (UnitQuaternion.from_quaternion q) < 1e-6
    · rw [if_pos hg, from_quaternion_small_eq_zero q hg,
        UnitQuaternion.euler_angles, to_rotation_matrix_zero,
        euler_angles_zero_matrix]
      dsimp only
      have hna0 : AnimationAngle.normalize_angle 0 = 0 :=
        normalize_angle_id 0 le_rfl (le_of_lt Real.pi_pos)
      rw [hna0, R3_zero_eval,
        from_quaternion_of_unit ⟨1, 0, 0, 0⟩ (by simp [nsq]),
        to_rotation_matrix_one]
    · rw [if_neg hg]
      have hq : nsq q ≠ 0 := by
        intro h0
        apply hg
        rw [(nsq_eq_zero_iff q).mp h0, from_quaternion_zero]
        simp [nsq]
        norm_num
      have hu : nsq (UnitQuaternion.from_quaternion q) = 1 := nsq_from_quaternion q hq
      have hcorrect := euler_angles_extraction (UnitQuaternion.from_quaternion q) hu
      rw [← hcorrect]
      exact R3_congr _ _ _ _ _ _ (normalize_angle_congr _) (normalize_angle_congr _)
        (normalize_angle_congr _)

/-! ## Every winding candidate is ±1 in exact arithmetic -/

theorem mk_one_quat : (⟨1, 0, 0, 0⟩ : Quat) = 1 := by
  apply Quaternion.ext <;> simp

theorem mk_neg_one_quat : (⟨-1, 0, 0, 0⟩ : Quat) = -1 := by
  apply Quaternion.ext <;> simp

theorem windingQs_pm (x : Quat) (hx : x ∈ windingQs) :
    x = 1 ∨ x = -1 := by
  simp only [windingQs, List.mem_cons, List.not_mem_nil, or_false] at hx
  rcases hx with rfl | rfl | rfl | rfl | rfl | rfl | rfl
  · exact Or.inl (by rw [from_euler_angles_zero, mk_one_quat])
  · exact Or.inr (by rw [from_euler_angles_two_pi_x, mk_neg_one_quat])
  · exact Or.inr (by rw [from_euler_angles_neg_two_pi_x, mk_neg_one_quat])
  · exact Or.inr (by rw [from_euler_angles_two_pi_y, mk_neg_one_quat])
  · exact Or.inr (by rw [from_euler_angles_neg_two_pi_y, mk_neg_one_quat])
  · exact Or.inr (by rw [from_euler_angles_two_pi_z, mk_neg_one_quat])
  · exact Or.inr (by rw [from_euler_angles_neg_two_pi_z, mk_neg_one_quat])

theorem pm_mul (x y : Quat)
    (hx : x = 1 ∨ x = -1) (hy : y = 1 ∨ y = -1) :
    x * y = 1 ∨ x * y = -1 := by
  rcases hx with rfl | rfl <;> rcases hy with rfl | rfl <;> simp

theorem windingCandidates_pm (a : Quat) (ha : a ∈ windingCandidates) :
    a = 1 ∨ a = -1 := by
  unfold windingCandidates at ha
  obtain ⟨fg, hfg, ha2⟩ := List.mem_flatMap.mp ha
  obtain ⟨h, hh, rfl⟩ := List.mem_map.mp ha2
  obtain ⟨f, hf, hfg2⟩ := List.mem_flatMap.mp hfg
  obtain ⟨g, hg, rfl⟩ := List.mem_map.mp hfg2
  exact pm_mul _ _ (pm_mul _ _ (windingQs_pm f hf) (windingQs_pm g hg))
    (windingQs_pm h hh)

theorem windingOptions_decompose (bq eq' : Quat) (p : Quat × Quat)
    (hp : p ∈ windingOptions bq eq') :
    (∃ a : Quat, (a = 1 ∨ a = -1) ∧ p = (a * bq, eq')) ∨
    (∃ a : Quat, (a = 1 ∨ a = -1) ∧ p = (bq, a * eq')) := by
  unfold windingOptions at hp
  obtain ⟨a, ha, hmem⟩ := List.mem_flatMap.mp hp
  have hpm := windingCandidates_pm a ha
  simp only [List.mem_cons, List.not_mem_nil, or_false] at hmem
  rcases hmem with rfl | rfl
  · exact Or.inl ⟨a, hpm, rfl⟩
  · exact Or.inr ⟨a, hpm, rfl⟩

theorem rot_neg (b : Quat) :
    UnitQuaternion.to_rotation_matrix (-b) = UnitQuaternion.to_rotation_matrix b := by
  apply Mat3.ext <;>
    simp only [UnitQuaternion.to_rotation_matrix, Quaternion.neg_re,
      Quaternion.neg_imI, Quaternion.neg_imJ, Quaternion.neg_imK] <;>
    ring

theorem pm_mul_rot (s b : Quat) (hs : s = 1 ∨ s = -1) :
    UnitQuaternion.to_rotation_matrix (s * b) =
      UnitQuaternion.to_rotation_matrix b := by
  rcases hs with rfl | rfl
  · rw [one_mul]
  · rw [neg_one_mul, rot_neg]

theorem pm_nsq (s : Quat) (hs : s = 1 ∨ s = -1) : nsq s = 1 := by
  rcases hs with rfl | rfl <;> simp [nsq]

/-! ## Properties of `get_normalized_angles` used by the endpoint claims -/

theorem gna_euler_fst (b e : AnimationAngle) :
    (AnimationAngle.get_normalized_angles b e).2.1 =
      (AnimationAngle.resolvedEulerPair b e).1 := rfl

theorem gna_euler_snd (b e : AnimationAngle) :
    (AnimationAngle.get_normalized_angles b e).2.2.2 =
      (AnimationAngle.resolvedEulerPair b e).2 := rfl

theorem resolved_fst_rot (b e : AnimationAngle) :
    Rotation3.from_euler_angles (AnimationAngle.resolvedEulerPair b e).1.x
      (AnimationAngle.resolvedEulerPair b e).1.y
      (AnimationAngle.resolvedEulerPair b e).1.z =
      UnitQuaternion.to_rotation_matrix (AnimationAngle.deconstruct b).1 := by
  rw [← deconstruct_euler_rot b]
  refine R3_congr _ _ _ _ _ _ ?_ ?_ ?_
  · exact (angles_shortest_path_congr (AnimationAngle.deconstruct b).2.x
      (AnimationAngle.deconstruct e).2.x).1
  · exact (angles_shortest_path_congr (AnimationAngle.deconstruct b).2.y
      (AnimationAngle.deconstruct e).2.y).1
  · exact (angles_shortest_path_congr (AnimationAngle.deconstruct b).2.z
      (AnimationAngle.deconstruct e).2.z).1

theorem resolved_snd_rot (b e : AnimationAngle) :
    Rotation3.from_euler_angles (AnimationAngle.resolvedEulerPair b e).2.x
      (AnimationAngle.resolvedEulerPair b e).2.y
      (AnimationAngle.resolvedEulerPair b e).2.z =
      UnitQuaternion.to_rotation_matrix (AnimationAngle.deconstruct e).1 := by
  rw [← deconstruct_euler_rot e]
  refine R3_congr _ _ _ _ _ _ ?_ ?_ ?_
  · exact (angles_shortest_path_congr (AnimationAngle.deconstruct b).2.x
      (AnimationAngle.deconstruct e).2.x).2
  · exact (angles_shortest_path_congr (AnimationAngle.deconstruct b).2.y
      (AnimationAngle.deconstruct e).2.y).2
  · exact (angles_shortest_path_congr (AnimationAngle.deconstruct b).2.z
      (AnimationAngle.deconstruct e).2.z).2

/-- Both quaternions produced by `get_normalized_angles` are unit quaternions
and represent the same rotation matrices as the deconstructed endpoints: the
winding search can only multiply an endpoint by an exact ±identity rotation. -/
theorem gna_props (b e : AnimationAngle) :
    nsq (AnimationAngle.get_normalized_angles b e).1 = 1 ∧
    nsq (AnimationAngle.get_normalized_angles b e).2.2.1 = 1 ∧
    UnitQuaternion.to_rotation_matrix (AnimationAngle.get_normalized_angles b e).1 =
      UnitQuaternion.to_rotation_matrix (AnimationAngle.deconstruct b).1 ∧
    UnitQuaternion.to_rotation_matrix
        (AnimationAngle.get_normalized_angles b e).2.2.1 =
      UnitQuaternion.to_rotation_matrix (AnimationAngle.deconstruct e).1 := by
  cases b with
  | Euler v =>
    rw [get_normalized_angles_euler_begin]
    refine ⟨nsq_from_euler_angles _ _ _, nsq_from_euler_angles _ _ _, ?_, ?_⟩
    · show UnitQuaternion.to_rotation_matrix (UnitQuaternion.from_euler_angles
        (AnimationAngle.resolvedEulerPair (.Euler v) e).1.x
        (AnimationAngle.resolvedEulerPair (.Euler v) e).1.y
        (AnimationAngle.resolvedEulerPair (.Euler v) e).1.z) = _
      rw [to_rotation_matrix_from_euler]
      exact resolved_fst_rot (.Euler v) e
    · show UnitQuaternion.to_rotation_matrix (UnitQuaternion.from_euler_angles
        (AnimationAngle.resolvedEulerPair (.Euler v) e).2.x
        (AnimationAngle.resolvedEulerPair (.Euler v) e).2.y
        (AnimationAngle.resolvedEulerPair (.Euler v) e).2.z) = _
      rw [to_rotation_matrix_from_euler]
      exact resolved_snd_rot (.Euler v) e
  | Quternion q =>
    obtain ⟨m, hm, hmem, -⟩ := reduceMinByScore_windingOptions
      (AnimationAngle.deconstruct (.Quternion q)).1 (AnimationAngle.deconstruct e).1
    rw [get_normalized_angles_quat_begin q e m hm]
    dsimp only
    rcases windingOptions_decompose _ _ m hmem with ⟨a, hpm, hp⟩ | ⟨a, hpm, hp⟩
    · have h1 : m.1 = a * (AnimationAngle.deconstruct (.Quternion q)).1 := by rw [hp]
      have h2 : m.2 = (AnimationAngle.deconstruct e).1 := by rw [hp]
      rw [h1, h2]
      refine ⟨?_, nsq_deconstruct e, pm_mul_rot _ _ hpm, rfl⟩
      rw [nsq_mul, pm_nsq a hpm, nsq_deconstruct, one_mul]
    · have h1 : m.1 = (AnimationAngle.deconstruct (.Quternion q)).1 := by rw [hp]
      have h2 : m.2 = a * (AnimationAngle.deconstruct e).1 := by rw [hp]
      rw [h1, h2]
      refine ⟨nsq_deconstruct _, ?_, rfl, pm_mul_rot _ _ hpm⟩
      rw [nsq_mul, pm_nsq a hpm, nsq_deconstruct, one_mul]

/-! ## Interpolation endpoints -/

theorem spherical_raw_eq (b e : Quat) (t : ℝ) :
    get_quaternions_interpolation_raw b e t .Spherical =
      (if Real.sin (Real.arccos (slerpCos b e)) = 0 then
        qscale (1 - t) b + qscale t e
       else
        qscale (Real.sin ((1 - t) * Real.arccos (slerpCos b e)) /
            Real.sin (Real.arccos (slerpCos b e))) b +
          qscale (Real.sin (t * Real.arccos (slerpCos b e)) /
            Real.sin (Real.arccos (slerpCos b e))) e) := by
  simp only [get_quaternions_interpolation_raw, slerpCos]
  split_ifs <;> rfl

theorem interp_raw_zero (b e : Quat) (ty : QuaternionInterpolationType) :
    get_quaternions_interpolation_raw b e 0 ty = b := by
  cases ty with
  | Linear =>
    simp only [get_quaternions_interpolation_raw]
    apply Quaternion.ext <;> simp [qscale]
  | Spherical =>
    rw [spherical_raw_eq]
    split_ifs with hs
    · apply Quaternion.ext <;> simp [qscale]
    · have h1 : (1 - (0 : ℝ)) * Real.arccos (slerpCos b e) =
        Real.arccos (slerpCos b e) := by ring
      have h0 : (0 : ℝ) * Real.arccos (slerpCos b e) = 0 := by ring
      rw [h1, h0, Real.sin_zero, div_self hs, zero_div]
      apply Quaternion.ext <;> simp [qscale]

theorem interp_raw_one (b e : Quat) (ty : QuaternionInterpolationType) :
    get_quaternions_interpolation_raw b e 1 ty = e := by
  cases ty with
  | Linear =>
    simp only [get_quaternions_interpolation_raw]
    apply Quaternion.ext <;> simp [qscale]
  | Spherical =>
    rw [spherical_raw_eq]
    split_ifs with hs
    · apply Quaternion.ext <;> simp [qscale]
    · have h1 : (1 - (1 : ℝ)) * Real.arccos (slerpCos b e) = 0 := by ring
      have h0 : (1 : ℝ) * Real.arccos (slerpCos b e) =
        Real.arccos (slerpCos b e) := by ring
      rw [h1, h0, Real.sin_zero, div_self hs, zero_div]
      apply Quaternion.ext <;> simp [qscale]

theorem interp_zero (b e : Quat) (ty : QuaternionInterpolationType)
    (h : nsq b = 1) : get_quaternions_interpolation b e 0 ty = b := by
  rw [get_quaternions_interpolation, interp_raw_zero, from_quaternion_of_unit b h]

theorem interp_one (b e : Quat) (ty : QuaternionInterpolationType)
    (h : nsq e = 1) : get_quaternions_interpolation b e 1 ty = e := by
  rw [get_quaternions_interpolation, interp_raw_one, from_quaternion_of_unit e h]

theorem vec_combo_zero (b e : Vec3) : (1 - (0 : ℝ)) • b + (0 : ℝ) • e = b := by
  rw [Vec3.smul_def, Vec3.smul_def, Vec3.add_def]
  apply Vec3.ext <;> simp

theorem vec_combo_one (b e : Vec3) : (1 - (1 : ℝ)) • b + (1 : ℝ) • e = e := by
  rw [Vec3.smul_def, Vec3.smul_def, Vec3.add_def]
  apply Vec3.ext <;> simp

/-! ## Discrete frames at the endpoint fractions -/

theorem discreteQuatFrame_zero (bp ep : Vec3) (b e : AnimationAngle)
    (ty : QuaternionInterpolationType) :
    discreteQuatFrame bp ep (AnimationAngle.get_normalized_angles b e).1
      (AnimationAngle.get_normalized_angles b e).2.2.1 ty 0 =
      poseTransform bp b := by
  unfold discreteQuatFrame poseTransform poseRotation
  dsimp only
  rw [vec_combo_zero, interp_zero _ _ _ (gna_props b e).1, (gna_props b e).2.2.1]

theorem discreteQuatFrame_one (bp ep : Vec3) (b e : AnimationAngle)
    (ty : QuaternionInterpolationType) :
    discreteQuatFrame bp ep (AnimationAngle.get_normalized_angles b e).1
      (AnimationAngle.get_normalized_angles b e).2.2.1 ty 1 =
      poseTransform ep e := by
  unfold discreteQuatFrame poseTransform poseRotation
  dsimp only
  rw [vec_combo_one, interp_one _ _ _ (gna_props b e).2.1, (gna_props b e).2.2.2]

theorem discreteEulerFrame_zero (bp ep : Vec3) (b e : AnimationAngle) :
    discreteEulerFrame bp ep (AnimationAngle.get_normalized_angles b e).2.1
      (AnimationAngle.get_normalized_angles b e).2.2.2 0 =
      poseTransform bp b := by
  unfold discreteEulerFrame poseTransform poseRotation
  dsimp only
  rw [vec_combo_zero, vec_combo_zero, gna_euler_fst, resolved_fst_rot b e]

theorem discreteEulerFrame_one (bp ep : Vec3) (b e : AnimationAngle) :
    discreteEulerFrame bp ep (AnimationAngle.get_normalized_angles b e).2.1
      (AnimationAngle.get_normalized_angles b e).2.2.2 1 =
      poseTransform ep e := by
  unfold discreteEulerFrame poseTransform poseRotation
  dsimp only
  rw [vec_combo_one, vec_combo_one, gna_euler_snd, resolved_snd_rot b e]

/-! ## Claim theorems: C3 -/

/-- C3: for a `DiscreteFrameAnimation` with `frames_count = N` (N ≥ 2),
after the first `make_step` call both `get_quaternion_frames` and
`get_euler_frames` return exactly N transforms, frame `f` being computed at
interpolation fraction `f / (N - 1)`, so frame 0 equals the begin-pose
transform and frame N−1 equals the end-pose transform, on both the
quaternion-path and the Euler-path sequences (exactly, in real arithmetic). -/
theorem c3_discrete_endpoint_frames (bp ep : Vec3) (N : ℕ)
    (ba ea : AnimationAngle) (ty : QuaternionInterpolationType) (t : ℝ)
    (hN : 2 ≤ N) :
    ∃ qf ef : List Mat4,
      DiscreteFrameAnimation.get_quaternion_frames
        (DiscreteFrameAnimation.make_step ⟨bp, ep, N, ba, ea, ty, none, none⟩ t) =
        some qf ∧
      DiscreteFrameAnimation.get_euler_frames
        (DiscreteFrameAnimation.make_step ⟨bp, ep, N, ba, ea, ty, none, none⟩ t) =
        some ef ∧
      qf.length = N ∧ ef.length = N ∧
      (∀ f, f < N →
        qf[f]? = some (discreteQuatFrame bp ep
          (AnimationAngle.get_normalized_angles ba ea).1
          (AnimationAngle.get_normalized_angles ba ea).2.2.1 ty
          ((f : ℝ) / ((N - 1 : ℕ) : ℝ))) ∧
        ef[f]? = some (discreteEulerFrame bp ep
          (AnimationAngle.get_normalized_angles ba ea).2.1
          (AnimationAngle.get_normalized_angles ba ea).2.2.2
          ((f : ℝ) / ((N - 1 : ℕ) : ℝ)))) ∧
      qf[0]? = some (poseTransform bp ba) ∧
      qf[N - 1]? = some (poseTransform ep ea) ∧
      ef[0]? = some (poseTransform bp ba) ∧
      ef[N - 1]? = some (poseTransform ep ea) := by
  have h0 : 0 < N := by omega
  have h1 : N - 1 < N := by omega
  have hcast : ((N - 1 : ℕ) : ℝ) / ((N - 1 : ℕ) : ℝ) = 1 :=
    div_self (Nat.cast_ne_zero.mpr (by omega))
  refine ⟨(List.range N).map (fun f : ℕ => discreteQuatFrame bp ep
      (AnimationAngle.get_normalized_angles ba ea).1
      (AnimationAngle.get_normalized_angles ba ea).2.2.1 ty
      ((f : ℝ) / ((N - 1 : ℕ) : ℝ))),
    (List.range N).map (fun f : ℕ => discreteEulerFrame bp ep
      (AnimationAngle.get_normalized_angles ba ea).2.1
      (AnimationAngle.get_normalized_angles ba ea).2.2.2
      ((f : ℝ) / ((N - 1 : ℕ) : ℝ))),
    ?_, ?_, by simp, by simp, ?_, ?_, ?_, ?_, ?_⟩
  · simp [DiscreteFrameAnimation.make_step,
      DiscreteFrameAnimation.get_quaternion_frames]
  · simp [DiscreteFrameAnimation.make_step,
      DiscreteFrameAnimation.get_euler_frames]
  · intro f hf
    constructor <;> simp [List.getElem?_map, List.getElem?_range, hf]
  · rw [List.getElem?_map, List.getElem?_range h0]
    simp only [Option.map_some', Nat.cast_zero, zero_div]
    rw [discreteQuatFrame_zero bp ep ba ea ty]
  · rw [List.getElem?_map, List.getElem?_range h1]
    simp only [Option.map_some', hcast]
    rw [discreteQuatFrame_one bp ep ba ea ty]
  · rw [List.getElem?_map, List.getElem?_range h0]
    simp only [Option.map_some', Nat.cast_zero, zero_div]
    rw [discreteEulerFrame_zero bp ep ba ea]
  · rw [List.getElem?_map, List.getElem?_range h1]
    simp only [Option.map_some', hcast]
    rw [discreteEulerFrame_one bp ep ba ea]

/-- Witness for C3 at a concrete two-frame animation. -/
theorem c3_discrete_endpoint_frames_witness :
    2 ≤ (2 : ℕ) ∧
    ∃ qf ef : List Mat4,
      DiscreteFrameAnimation.get_quaternion_frames
        (DiscreteFrameAnimation.make_step
          ⟨⟨0, 0, 0⟩, ⟨1, 2, 3⟩, 2, .Euler ⟨0, 0, 0⟩, .Euler ⟨0, 0, 0⟩, .Linear,
            none, none⟩ 5) = some qf ∧
      DiscreteFrameAnimation.get_euler_frames
        (DiscreteFrameAnimation.make_step
          ⟨⟨0, 0, 0⟩, ⟨1, 2, 3⟩, 2, .Euler ⟨0, 0, 0⟩, .Euler ⟨0, 0, 0⟩, .Linear,
            none, none⟩ 5) = some ef ∧
      qf.length = 2 ∧ ef.length = 2 ∧
      (∀ f : ℕ, f < 2 →
        qf[f]? = some (discreteQuatFrame ⟨0, 0, 0⟩ ⟨1, 2, 3⟩
          (AnimationAngle.get_normalized_angles (.Euler ⟨0, 0, 0⟩)
            (.Euler ⟨0, 0, 0⟩)).1
          (AnimationAngle.get_normalized_angles (.Euler ⟨0, 0, 0⟩)
            (.Euler ⟨0, 0, 0⟩)).2.2.1 .Linear
          ((f : ℝ) / ((2 - 1 : ℕ) : ℝ))) ∧
        ef[f]? = some (discreteEulerFrame ⟨0, 0, 0⟩ ⟨1, 2, 3⟩
          (AnimationAngle.get_normalized_angles (.Euler ⟨0, 0, 0⟩)
            (.Euler ⟨0, 0, 0⟩)).2.1
          (AnimationAngle.get_normalized_angles (.Euler ⟨0, 0, 0⟩)
            (.Euler ⟨0, 0, 0⟩)).2.2.2
          ((f : ℝ) / ((2 - 1 : ℕ) : ℝ)))) ∧
      qf[0]? = some (poseTransform ⟨0, 0, 0⟩ (.Euler ⟨0, 0, 0⟩)) ∧
      qf[(2 - 1 : ℕ)]? = some (poseTransform ⟨1, 2, 3⟩ (.Euler ⟨0, 0, 0⟩)) ∧
      ef[0]? = some (poseTransform ⟨0, 0, 0⟩ (.Euler ⟨0, 0, 0⟩)) ∧
      ef[(2 - 1 : ℕ)]? = some (poseTransform ⟨1, 2, 3⟩ (.Euler ⟨0, 0, 0⟩)) :=
  ⟨by norm_num, c3_discrete_endpoint_frames ⟨0, 0, 0⟩ ⟨1, 2, 3⟩ 2
    (.Euler ⟨0, 0, 0⟩) (.Euler ⟨0, 0, 0⟩) .Linear 5 (by norm_num)⟩

end MovementInterpolation
